import Mathlib

/-!
Verification of the `lua_decomp` Lua 5.1 bytecode decoder.

Shallow embedding of the decoder sources:
  * `src/parser/header.rs`    — `parse_header` and the `Header` record,
  * `src/parser/function.rs`  — `parse_function` and its local primitive
    parsers (`parse_integer`, `parse_size_t`, `parse_string`,
    `parse_instruction`, `parse_number`, `parse_constant`),
  * `src/parser/mod.rs`       — `parse_lua_bytecode`,
  * `src/parser/bytecode.rs`  — the `Instruction` bit-field accessors and
    the `Opcode` table bound.

Modelling conventions:
  * A byte buffer is a `List Nat`; every read reduces the element mod 256,
    which is the identity on genuine byte values (`u8` semantics).
  * The nom error machinery is modelled by the concrete runtime error type
    the crate instantiates, `nom::error::Error` = (remaining input,
    `ErrorKind`), wrapped in `nom::Err::{Error, Failure}`.  `context`
    annotations are discarded by this error type (as they are at runtime),
    so the spec's named error kinds correspond to the check sites:
    `InvalidMagic` = the magic `tag` failure (kind `Tag` at offset 0),
    `UnsupportedVersion` / `UnsupportedFormat` / `UnsupportedWidth` = the
    `verify` failures at the respective byte offsets (kind `Verify`),
    `Truncated` = the insufficient-input failures of the numeric and
    `take` primitives (kind `Eof`), `InvalidEncoding` = the NUL-terminator
    `tag` failure (kind `Tag`), `LengthOverflow` = the
    `usize::try_from` failure (kind `TooLarge`, wrapped in `Failure`),
    `TrailingData` = the leftover-bytes error built in `parse_lua_bytecode`
    (kind `Eof` with the unconsumed suffix as its input).
  * Rust `usize` is `Nat`; the target is 64-bit, so `usize::try_from` on a
    `u64` is total and on an `i32` fails exactly for negative values.
  * `f64` constant payloads are never inspected by any claim, so
    `Constant::Number` carries the raw 64-bit image read from the buffer.
  * The recursion of `parse_function` is realised with an explicit fuel
    argument (`Nat.rec`), so that the definition is executable and
    kernel-reducible; fuel exhaustion is the distinguished error kind
    `ErrKind.Fuel`, and the termination theorem (claim C6) proves that
    with fuel `> input length` this kind is never produced.
-/

/-- Byte order of the bytecode image (`Endianness` in `bytecode.rs` /
`constants.rs`). -/
inductive Endianness
  | Big
  | Little
deriving DecidableEq, Repr

/-- The decoded bytecode header (`Header` in `header.rs`). -/
structure Header where
  version : Nat
  format : Nat
  endianness : Endianness
  size_int : Nat
  size_size_t : Nat
  size_instruction : Nat
  size_number : Nat
  integral_flag : Bool
deriving DecidableEq, Repr

/-- The nom `ErrorKind` values this crate can produce, plus the
distinguished `Fuel` kind used only by the fuel-instrumented embedding of
the recursive `parse_function` (see claim C6). -/
inductive ErrKind
  | Tag
  | Eof
  | Verify
  | TooLarge
  | MapRes
  | Fuel
deriving DecidableEq, Repr

/-- `nom::error::Error<&[u8]>`: the remaining input at the failure point
and the `ErrorKind`. -/
structure NomError where
  input : List Nat
  code : ErrKind
deriving DecidableEq, Repr

/-- `nom::Err`: recoverable (`Error`) or unrecoverable (`Failure`) parse
error.  The `Incomplete` variant never occurs with `complete` parsers. -/
inductive NomErr
  | Error (e : NomError)
  | Failure (e : NomError)
deriving DecidableEq, Repr

/-- `IResult<&[u8], α>`: either an error or the value together with the
remaining input. -/
abbrev PResult (α : Type) := Except NomErr (α × List Nat)

/-- The `?` operator on `IResult`: propagate errors, feed the value and
the remaining input to the continuation. -/
def pbind {α β : Type} (r : PResult α) (k : α → List Nat → PResult β) : PResult β :=
  match r with
  | .error e => .error e
  | .ok (a, l) => k a l

/-- `true` exactly on successful parses. -/
def isOkB {ε α : Type} : Except ε α → Bool
  | .ok _ => true
  | .error _ => false

/-- `true` exactly on the artificial fuel-exhaustion error of the
embedding (never produced by the parsers themselves; see claim C6). -/
def isFuelErr {α : Type} : Except NomErr α → Bool
  | .error (.Error ⟨_, .Fuel⟩) => true
  | .error (.Failure ⟨_, .Fuel⟩) => true
  | _ => false

namespace Nom

/-- `nom::number::complete::u8`: one byte, `Eof` if the input is empty. -/
def u8 (l : List Nat) : PResult Nat :=
  match l with
  | [] => .error (.Error ⟨l, .Eof⟩)
  | b :: rest => .ok (b % 256, rest)

/-- `nom::number::complete::be_u32`: four bytes, big endian, `Eof` when
fewer than four bytes remain. -/
def be_u32 (l : List Nat) : PResult Nat :=
  match l with
  | b0 :: b1 :: b2 :: b3 :: rest =>
      .ok ((((b0 % 256) * 256 + b1 % 256) * 256 + b2 % 256) * 256 + b3 % 256, rest)
  | _ => .error (.Error ⟨l, .Eof⟩)

/-- `nom::number::complete::le_u32`. -/
def le_u32 (l : List Nat) : PResult Nat :=
  match l with
  | b0 :: b1 :: b2 :: b3 :: rest =>
      .ok ((((b3 % 256) * 256 + b2 % 256) * 256 + b1 % 256) * 256 + b0 % 256, rest)
  | _ => .error (.Error ⟨l, .Eof⟩)

/-- `nom::number::complete::be_u64`. -/
def be_u64 (l : List Nat) : PResult Nat :=
  match l with
  | b0 :: b1 :: b2 :: b3 :: b4 :: b5 :: b6 :: b7 :: rest =>
      .ok ((((((((b0 % 256) * 256 + b1 % 256) * 256 + b2 % 256) * 256 + b3 % 256) * 256
        + b4 % 256) * 256 + b5 % 256) * 256 + b6 % 256) * 256 + b7 % 256, rest)
  | _ => .error (.Error ⟨l, .Eof⟩)

/-- `nom::number::complete::le_u64`. -/
def le_u64 (l : List Nat) : PResult Nat :=
  match l with
  | b0 :: b1 :: b2 :: b3 :: b4 :: b5 :: b6 :: b7 :: rest =>
      .ok ((((((((b7 % 256) * 256 + b6 % 256) * 256 + b5 % 256) * 256 + b4 % 256) * 256
        + b3 % 256) * 256 + b2 % 256) * 256 + b1 % 256) * 256 + b0 % 256, rest)
  | _ => .error (.Error ⟨l, .Eof⟩)

/-- `nom::bytes::complete::take(n)`: the next `n` bytes, `Eof` when fewer
remain. -/
def take (n : Nat) (l : List Nat) : PResult (List Nat) :=
  if n ≤ l.length then .ok ((l.take n).map (· % 256), l.drop n)
  else .error (.Error ⟨l, .Eof⟩)

/-- `nom::bytes::complete::tag(t)`: exact byte match; nom reports kind
`Tag` both on a mismatch and on insufficient input. -/
def tag (t : List Nat) (l : List Nat) : PResult (List Nat) :=
  if t.length ≤ l.length ∧ (l.take t.length).map (· % 256) = t then
    .ok (t, l.drop t.length)
  else .error (.Error ⟨l, .Tag⟩)

/-- `nom::combinator::verify(u8, pred)` as used by `parse_header`: read
one byte, fail with kind `Verify` on the original input when the
predicate rejects it. -/
def verify_u8 (pred : Nat → Bool) (l : List Nat) : PResult Nat :=
  match u8 l with
  | .error e => .error e
  | .ok (v, rest) => if pred v then .ok (v, rest) else .error (.Error ⟨l, .Verify⟩)

/-- `nom::multi::count(p, n)`: run `p` exactly `n` times, propagating the
first failure (the `Error<I>` type discards the `Count` annotation). -/
def count {α : Type} (p : List Nat → PResult α) : Nat → List Nat → PResult (List α)
  | 0, l => .ok ([], l)
  | n + 1, l =>
      pbind (p l) fun a l1 =>
      pbind (count p n l1) fun as_ l2 =>
      .ok (a :: as_, l2)

end Nom

/-- A decoded constant (`Constant` in `constants.rs`).  The `f64` payload
of `Number` is modelled as the raw 64-bit image read from the buffer
(combined under the header's endianness); no claim inspects the numeric
value itself. -/
inductive Constant
  | Nil
  | Boolean (b : Bool)
  | Number (image : Nat)
  | Str (s : List Nat)
deriving DecidableEq, Repr

/-- `LocalVariable` in `function.rs` (pc fields are `u32`). -/
structure LocalVariable where
  varname : List Nat
  startpc : Nat
  endpc : Nat
deriving DecidableEq, Repr

/-- `DebugInfo` in `function.rs` (`lineinfo` entries are `u32`). -/
structure DebugInfo where
  lineinfo : List Nat
  locals : List LocalVariable
  upvalues : List (List Nat)
deriving DecidableEq, Repr

/-- `FunctionPrototype` in `function.rs`.  Rust `String`s are modelled as
lists of Unicode scalar values (the output of the lossy UTF-8 decoding
performed by `parse_string`). -/
structure FunctionPrototype where
  source_name : List Nat
  line_defined : Int
  last_line_defined : Int
  num_upvalues : Nat
  num_params : Nat
  is_vararg : Nat
  max_stack_size : Nat
  code : List Nat
  constants : List Constant
  prototypes : List FunctionPrototype
  debug_info : DebugInfo

/-- Two's-complement reinterpretation of a `u32` image as an `i32`
(the `v as i32` casts in `parse_integer`). -/
def toI32 (n : Nat) : Int :=
  if n < 2147483648 then (n : Int) else (n : Int) - 4294967296

/-- The `v as u32` cast applied to a parsed `i32` (used for `startpc`,
`endpc` and the `lineinfo` entries). -/
def u32OfI32 (i : Int) : Nat := (i % 4294967296).toNat

/-- `usize::try_from` on an `i32` value, 64-bit target: fails exactly for
negative values. -/
def usizeOfI32 (i : Int) : Option Nat :=
  if i < 0 then none else some i.toNat

/-- `true` on UTF-8 continuation bytes `0x80..=0xBF`. -/
def utf8Cont (b : Nat) : Bool := 0x80 ≤ b && b ≤ 0xBF

/-- Valid second byte of a three-byte UTF-8 sequence headed by `b`
(mirrors the match in `core::str::validations::run_utf8_validation`). -/
def utf8Valid3 (b c1 : Nat) : Bool :=
  (b == 0xE0 && 0xA0 ≤ c1 && c1 ≤ 0xBF) ||
  (0xE1 ≤ b && b ≤ 0xEC && utf8Cont c1) ||
  (b == 0xED && 0x80 ≤ c1 && c1 ≤ 0x9F) ||
  (0xEE ≤ b && b ≤ 0xEF && utf8Cont c1)

/-- Valid second byte of a four-byte UTF-8 sequence headed by `b`. -/
def utf8Valid4 (b c1 : Nat) : Bool :=
  (b == 0xF0 && 0x90 ≤ c1 && c1 ≤ 0xBF) ||
  (0xF1 ≤ b && b ≤ 0xF3 && utf8Cont c1) ||
  (b == 0xF4 && 0x80 ≤ c1 && c1 ≤ 0x8F)

/-- `String::from_utf8_lossy` on a byte list, producing the Unicode
scalar values of the resulting string: maximal valid sequences decode to
their scalar value, each maximal invalid subpart (including a truncated
sequence at the end of input) is replaced by U+FFFD.  The fuel argument
(any value `≥ length`) only realises the recursion; every step consumes
at least one byte. -/
def utf8LossyF : Nat → List Nat → List Nat
  | 0, _ => []
  | _ + 1, [] => []
  | fuel + 1, b :: rest =>
    if b < 0x80 then b :: utf8LossyF fuel rest
    else if 0xC2 ≤ b && b ≤ 0xDF then
      match rest with
      | [] => [0xFFFD]
      | c1 :: rest1 =>
        if utf8Cont c1 then ((b % 32) * 64 + c1 % 64) :: utf8LossyF fuel rest1
        else 0xFFFD :: utf8LossyF fuel rest
    else if 0xE0 ≤ b && b ≤ 0xEF then
      match rest with
      | [] => [0xFFFD]
      | c1 :: rest1 =>
        if utf8Valid3 b c1 then
          match rest1 with
          | [] => [0xFFFD]
          | c2 :: rest2 =>
            if utf8Cont c2 then
              ((b % 16) * 4096 + (c1 % 64) * 64 + c2 % 64) :: utf8LossyF fuel rest2
            else 0xFFFD :: utf8LossyF fuel rest1
        else 0xFFFD :: utf8LossyF fuel rest
    else if 0xF0 ≤ b && b ≤ 0xF4 then
      match rest with
      | [] => [0xFFFD]
      | c1 :: rest1 =>
        if utf8Valid4 b c1 then
          match rest1 with
          | [] => [0xFFFD]
          | c2 :: rest2 =>
            if utf8Cont c2 then
              match rest2 with
              | [] => [0xFFFD]
              | c3 :: rest3 =>
                if utf8Cont c3 then
                  ((b % 8) * 262144 + (c1 % 64) * 4096 + (c2 % 64) * 64 + c3 % 64)
                    :: utf8LossyF fuel rest3
                else 0xFFFD :: utf8LossyF fuel rest2
            else 0xFFFD :: utf8LossyF fuel rest1
        else 0xFFFD :: utf8LossyF fuel rest
    else 0xFFFD :: utf8LossyF fuel rest

/-- `String::from_utf8_lossy` (scalar-value view). -/
def utf8Lossy (l : List Nat) : List Nat := utf8LossyF l.length l

/-- `parse_integer` (`function.rs`): a 4-byte signed integer under the
header's endianness. -/
def parse_integer (h : Header) (l : List Nat) : PResult Int :=
  match h.endianness with
  | .Big => pbind (Nom.be_u32 l) fun v rest => .ok (toI32 v, rest)
  | .Little => pbind (Nom.le_u32 l) fun v rest => .ok (toI32 v, rest)

/-- `parse_size_t` (`function.rs`): a 4- or 8-byte length under the
header's `size_size_t` width and endianness; any other width is an
unrecoverable `Failure` with kind `Verify`. -/
def parse_size_t (h : Header) (l : List Nat) : PResult Nat :=
  if h.size_size_t = 4 then
    match h.endianness with
    | .Big => Nom.be_u32 l
    | .Little => Nom.le_u32 l
  else if h.size_size_t = 8 then
    match h.endianness with
    | .Big => Nom.be_u64 l
    | .Little => Nom.le_u64 l
  else .error (.Failure ⟨l, .Verify⟩)

/-- `parse_string` (`function.rs`): a `size_t`-prefixed, NUL-terminated
string.  Length 0 is the empty string with no further bytes consumed;
length `n ≥ 1` takes `n - 1` content bytes (the `checked_sub` cannot fail
on this path and `usize::try_from` of a `u64` is total on the 64-bit
target) and then requires a `0x00` terminator via `tag`; the content is
decoded with `String::from_utf8_lossy`. -/
def parse_string (h : Header) (l : List Nat) : PResult (List Nat) :=
  pbind (parse_size_t h l) fun len l1 =>
    if len = 0 then .ok ([], l1)
    else
      pbind (Nom.take (len - 1) l1) fun bytes l2 =>
      pbind (Nom.tag [0] l2) fun _ l3 =>
      .ok (utf8Lossy bytes, l3)

/-- `parse_instruction` (`function.rs`): a raw 4-byte instruction word
under the header's endianness. -/
def parse_instruction (h : Header) (l : List Nat) : PResult Nat :=
  match h.endianness with
  | .Big => Nom.be_u32 l
  | .Little => Nom.le_u32 l

/-- `parse_number` (`function.rs`): takes `size_number` bytes; the
`[u8; 8]` conversion inside `map_res` fails (kind `MapRes`, on the input
of the whole field) unless exactly 8 bytes were taken.  The value is kept
as the raw 64-bit image under the header's endianness. -/
def parse_number (h : Header) (l : List Nat) : PResult Nat :=
  pbind (Nom.take h.size_number l) fun bytes l1 =>
    if bytes.length = 8 then
      match h.endianness with
      | .Big => .ok (bytes.foldl (fun acc b => acc * 256 + b) 0, l1)
      | .Little => .ok (bytes.foldr (fun b acc => acc * 256 + b) 0, l1)
    else .error (.Error ⟨l, .MapRes⟩)

/-- `parse_constant` (`function.rs`): a tag byte selects Nil / Boolean /
Number / String; any other tag is an `Error` with kind `Tag` on the input
after the tag byte. -/
def parse_constant (h : Header) (l : List Nat) : PResult Constant :=
  pbind (Nom.u8 l) fun t l1 =>
    if t = 0x00 then .ok (.Nil, l1)
    else if t = 0x01 then pbind (Nom.u8 l1) fun v l2 => .ok (.Boolean (v ≠ 0), l2)
    else if t = 0x03 then pbind (parse_number h l1) fun n l2 => .ok (.Number n, l2)
    else if t = 0x04 then pbind (parse_string h l1) fun s l2 => .ok (.Str s, l2)
    else .error (.Error ⟨l1, .Tag⟩)

/-- The per-local parser inlined in `parse_function` (`function.rs`,
named `parse_local_variable` in the `parsers/function.rs` snapshot). -/
def parse_local_variable (h : Header) (l : List Nat) : PResult LocalVariable :=
  pbind (parse_string h l) fun varname l1 =>
  pbind (parse_integer h l1) fun startpc l2 =>
  pbind (parse_integer h l2) fun endpc l3 =>
  .ok (⟨varname, u32OfI32 startpc, u32OfI32 endpc⟩, l3)

/-- The length-prefixed-sequence pattern that `parse_function`
(`function.rs`) inlines six times (code, constants, prototypes, lineinfo,
locals, upvalues), and that `parsers/function.rs` names `parse_section`:
read the count with `parse_integer` (4-byte signed, NOT `parse_size_t`),
convert it with `usize::try_from` (an unrecoverable `Failure` with kind
`TooLarge` when it does not fit, i.e. exactly when it is negative), and
run the element parser that many times with `count`. -/
def parse_section {α : Type} (h : Header) (p : List Nat → PResult α)
    (l : List Nat) : PResult (List α) :=
  pbind (parse_integer h l) fun len l1 =>
    match usizeOfI32 len with
    | none => .error (.Failure ⟨l1, .TooLarge⟩)
    | some n => Nom.count p n l1

/-- `parse_function` (`function.rs`): the recursive function-prototype
decoder.  Decodes, in order: source name, the two line numbers, the four
single-byte counters, and the six length-prefixed sections (code,
constants, nested prototypes — the recursive self-call —, lineinfo,
locals, upvalue names).  The extra `fuel` argument realises the
recursion via `Nat.rec`; the `zero` case is the artificial `Fuel` error,
proved unreachable for `fuel > length input` in claim C6. -/
def parse_function (h : Header) (fuel : Nat) : List Nat → PResult FunctionPrototype :=
  Nat.rec (motive := fun _ => List Nat → PResult FunctionPrototype)
    (fun l => .error (.Failure ⟨l, .Fuel⟩))
    (fun _ ih l =>
      pbind (parse_string h l) fun source_name l1 =>
      pbind (parse_integer h l1) fun line_defined l2 =>
      pbind (parse_integer h l2) fun last_line_defined l3 =>
      pbind (Nom.u8 l3) fun num_upvalues l4 =>
      pbind (Nom.u8 l4) fun num_params l5 =>
      pbind (Nom.u8 l5) fun is_vararg l6 =>
      pbind (Nom.u8 l6) fun max_stack_size l7 =>
      pbind (parse_section h (parse_instruction h) l7) fun code l8 =>
      pbind (parse_section h (parse_constant h) l8) fun constants l9 =>
      pbind (parse_section h ih l9) fun prototypes l10 =>
      pbind (parse_section h (parse_integer h) l10) fun lineinfo l11 =>
      pbind (parse_section h (parse_local_variable h) l11) fun locals l12 =>
      pbind (parse_section h (parse_string h) l12) fun upvalues l13 =>
      .ok ({ source_name := source_name
             line_defined := line_defined
             last_line_defined := last_line_defined
             num_upvalues := num_upvalues
             num_params := num_params
             is_vararg := is_vararg
             max_stack_size := max_stack_size
             code := code
             constants := constants
             prototypes := prototypes
             debug_info := { lineinfo := lineinfo.map u32OfI32
                             locals := locals
                             upvalues := upvalues } }, l13))
    fuel

/-- The single invocation of the recursive `parse_function`: fuel
`length l + 1` always suffices (claim C6). -/
def parse_function_run (h : Header) (l : List Nat) : PResult FunctionPrototype :=
  parse_function h (l.length + 1) l

/-- `parse_header` (`header.rs`): 4-byte magic, version `0x51`, format
`0`, endianness byte (`1` is little, anything else big), the four width
bytes checked against 4, 8, 4, 8, and the integral flag byte. -/
def parse_header (l : List Nat) : PResult Header :=
  pbind (Nom.tag [0x1B, 0x4C, 0x75, 0x61] l) fun _ l1 =>
  pbind (Nom.verify_u8 (fun v => v == 0x51) l1) fun version l2 =>
  pbind (Nom.verify_u8 (fun f => f == 0) l2) fun format l3 =>
  pbind (Nom.u8 l3) fun eb l4 =>
  pbind (Nom.verify_u8 (fun v => v == 4) l4) fun size_int l5 =>
  pbind (Nom.verify_u8 (fun v => v == 8) l5) fun size_size_t l6 =>
  pbind (Nom.verify_u8 (fun v => v == 4) l6) fun size_instruction l7 =>
  pbind (Nom.verify_u8 (fun v => v == 8) l7) fun size_number l8 =>
  pbind (Nom.u8 l8) fun ib l9 =>
  .ok ({ version := version
         format := format
         endianness := if eb = 1 then .Little else .Big
         size_int := size_int
         size_size_t := size_size_t
         size_instruction := size_instruction
         size_number := size_number
         integral_flag := ib != 0 }, l9)

/-- `parse_lua_bytecode` (`mod.rs`): header, then one root prototype,
then the buffer must be fully consumed — any leftover byte is the
`Eof`-kind error built on the unconsumed suffix (the spec's
`TrailingData`). -/
def parse_lua_bytecode (input : List Nat) : Except NomErr (Header × FunctionPrototype) :=
  match parse_header input with
  | .error e => .error e
  | .ok (header, l1) =>
    match parse_function_run header l1 with
    | .error e => .error e
    | .ok (prototype, l2) =>
      if l2 = [] then .ok (header, prototype)
      else .error (.Error ⟨l2, .Eof⟩)

/-- The 38 Lua 5.1 opcodes (`Opcode` in `bytecode.rs`). -/
inductive Opcode
  | MOVE | LOADK | LOADBOOL | LOADNIL
  | GETUPVAL | GETGLOBAL | GETTABLE | SETGLOBAL
  | SETUPVAL | SETTABLE | NEWTABLE | SELF
  | ADD | SUB | MUL | DIV
  | MOD | POW | UNM | NOT
  | LEN | CONCAT | JMP | EQ
  | LT | LE | TEST | TESTSET
  | CALL | TAILCALL | RETURN | FORLOOP
  | FORPREP | TFORLOOP | SETLIST | CLOSE
  | CLOSURE | VARARG
deriving DecidableEq, Repr

/-- `Opcode::try_from` (derived by `TryFromPrimitive` with bound
`TOTAL_OPS = 38`): `none` for any discriminant `≥ 38`. -/
def Opcode.try_from (n : Nat) : Option Opcode :=
  match n with
  | 0 => some .MOVE | 1 => some .LOADK | 2 => some .LOADBOOL | 3 => some .LOADNIL
  | 4 => some .GETUPVAL | 5 => some .GETGLOBAL | 6 => some .GETTABLE | 7 => some .SETGLOBAL
  | 8 => some .SETUPVAL | 9 => some .SETTABLE | 10 => some .NEWTABLE | 11 => some .SELF
  | 12 => some .ADD | 13 => some .SUB | 14 => some .MUL | 15 => some .DIV
  | 16 => some .MOD | 17 => some .POW | 18 => some .UNM | 19 => some .NOT
  | 20 => some .LEN | 21 => some .CONCAT | 22 => some .JMP | 23 => some .EQ
  | 24 => some .LT | 25 => some .LE | 26 => some .TEST | 27 => some .TESTSET
  | 28 => some .CALL | 29 => some .TAILCALL | 30 => some .RETURN | 31 => some .FORLOOP
  | 32 => some .FORPREP | 33 => some .TFORLOOP | 34 => some .SETLIST | 35 => some .CLOSE
  | 36 => some .CLOSURE | 37 => some .VARARG
  | _ => none

namespace Instruction

/-- Field sizes and positions (`bytecode.rs`): OP at bits [0,6), A at
[6,14), C at [14,23), B at [23,32), Bx spanning [14,32). -/
def SIZE_OP : Nat := 6
def SIZE_C : Nat := 9
def SIZE_B : Nat := 9
def SIZE_A : Nat := 8
def SIZE_BX : Nat := SIZE_C + SIZE_B
def POS_OP : Nat := 0
def POS_A : Nat := POS_OP + SIZE_OP
def POS_C : Nat := POS_A + SIZE_A
def POS_B : Nat := POS_C + SIZE_C
def POS_BX : Nat := POS_C

/-- `Instruction::extract_bits`: `(value >> start) & ((1 << (stop - start)) - 1)`
(the `assert!` on the range holds at every call site). -/
def extract_bits (start stop value : Nat) : Nat :=
  (value >>> start) % 2 ^ (stop - start)

/-- `Instruction::opcode`: extracts bits [0,6) and converts with
`Opcode::try_from(op).unwrap()`.  The `unwrap` panic on a failed
conversion is modelled as `none`: for an opcode field `≥ 38` the code
produces no value at all (it aborts), not an error value. -/
def opcode (w : Nat) : Option Opcode :=
  Opcode.try_from (extract_bits POS_OP (POS_OP + SIZE_OP) w)

/-- `Instruction::a`: bits [6,14). -/
def a (w : Nat) : Nat := extract_bits POS_A (POS_A + SIZE_A) w

/-- `Instruction::b` as written in `bytecode.rs`: it extracts the field
at `POS_C`, i.e. bits [14,23). -/
def b (w : Nat) : Nat := extract_bits POS_C (POS_C + SIZE_C) w

/-- `Instruction::c` as written in `bytecode.rs`: it extracts the field
at `POS_B`, i.e. bits [23,32). -/
def c (w : Nat) : Nat := extract_bits POS_B (POS_B + SIZE_B) w

/-- `Instruction::bx`: the 18-bit field at bits [14,32). -/
def bx (w : Nat) : Nat := extract_bits POS_BX (POS_BX + SIZE_BX) w

/-- `Instruction::sbx`: `bx as i32 - (1 << 17) + 1`. -/
def sbx (w : Nat) : Int := (bx w : Int) - 2 ^ 17 + 1

end Instruction

/-- A parser is *stable* when bytes beyond the ones it consumes do not
influence it: appending a suffix to a successful input yields the same
value with the suffix appended to the rest.  Every parser of this
decoder is stable (there is no lookahead past the consumed bytes). -/
def Stable {α : Type} (p : List Nat → PResult α) : Prop :=
  ∀ l t a r, p l = .ok (a, r) → p (l ++ t) = .ok (a, r ++ t)

/-- A parser *consumes* within its input: on success the remaining input
is no longer than the original. -/
def Consume {α : Type} (p : List Nat → PResult α) : Prop :=
  ∀ l a r, p l = .ok (a, r) → r.length ≤ l.length

/-- A parser never produces the artificial fuel-exhaustion error. -/
def NoFuel {α : Type} (p : List Nat → PResult α) : Prop :=
  ∀ l, isFuelErr (p l) = false

/-- The valid 12-byte header with endianness byte `e` and integral-flag
byte `ib`: magic `1B 4C 75 61`, version `0x51`, format `0`, widths
4, 8, 4, 8. -/
def header_bytes (e ib : Nat) : List Nat :=
  [0x1B, 0x4C, 0x75, 0x61, 0x51, 0x00, e, 0x04, 0x08, 0x04, 0x08, ib]

/-- The header value `parse_header` decodes from `header_bytes e ib`. -/
def header_of (e ib : Nat) : Header :=
  { version := 0x51
    format := 0
    endianness := if e % 256 = 1 then .Little else .Big
    size_int := 4
    size_size_t := 8
    size_instruction := 4
    size_number := 8
    integral_flag := (ib % 256) != 0 }

/-- The minimal function prototype: empty source name, zero line numbers,
zero counters, and all six length-prefixed sections empty — 44 zero
bytes under the little-endian 4/8/4/8 configuration. -/
def minimal_proto_bytes : List Nat := List.replicate 44 0

/-- The prototype decoded from `minimal_proto_bytes`. -/
def empty_prototype : FunctionPrototype :=
  { source_name := []
    line_defined := 0
    last_line_defined := 0
    num_upvalues := 0
    num_params := 0
    is_vararg := 0
    max_stack_size := 0
    code := []
    constants := []
    prototypes := []
    debug_info := { lineinfo := [], locals := [], upvalues := [] } }

/-- The minimal well-formed chunk: valid little-endian header followed by
the minimal prototype (56 bytes). -/
def minimal_chunk : List Nat := header_bytes 1 0 ++ minimal_proto_bytes

/-- Whether an error value is the artificial fuel-exhaustion marker. -/
def NomErr.isFuel : NomErr → Bool
  | .Error ⟨_, .Fuel⟩ => true
  | .Failure ⟨_, .Fuel⟩ => true
  | _ => false

theorem pbind_ok {α β : Type} (a : α) (l : List Nat) (k : α → List Nat → PResult β) :
    pbind (.ok (a, l)) k = k a l := rfl

theorem pbind_error {α β : Type} (e : NomErr) (k : α → List Nat → PResult β) :
    pbind (.error e) k = .error e := rfl

theorem pbind_eq_ok {α β : Type} {r : PResult α} {k : α → List Nat → PResult β}
    {b : β} {m : List Nat} (h : pbind r k = .ok (b, m)) :
    ∃ a l, r = .ok (a, l) ∧ k a l = .ok (b, m) := by
  cases r with
  | error e => simp [pbind] at h
  | ok al => exact ⟨al.1, al.2, rfl, h⟩

theorem parse_function_zero (h : Header) (l : List Nat) :
    parse_function h 0 l = .error (.Failure ⟨l, .Fuel⟩) := rfl

theorem parse_function_succ (h : Header) (fuel : Nat) (l : List Nat) :
    parse_function h (fuel + 1) l =
      (pbind (parse_string h l) fun source_name l1 =>
       pbind (parse_integer h l1) fun line_defined l2 =>
       pbind (parse_integer h l2) fun last_line_defined l3 =>
       pbind (Nom.u8 l3) fun num_upvalues l4 =>
       pbind (Nom.u8 l4) fun num_params l5 =>
       pbind (Nom.u8 l5) fun is_vararg l6 =>
       pbind (Nom.u8 l6) fun max_stack_size l7 =>
       pbind (parse_section h (parse_instruction h) l7) fun code l8 =>
       pbind (parse_section h (parse_constant h) l8) fun constants l9 =>
       pbind (parse_section h (parse_function h fuel) l9) fun prototypes l10 =>
       pbind (parse_section h (parse_integer h) l10) fun lineinfo l11 =>
       pbind (parse_section h (parse_local_variable h) l11) fun locals l12 =>
       pbind (parse_section h (parse_string h) l12) fun upvalues l13 =>
       .ok ({ source_name := source_name
              line_defined := line_defined
              last_line_defined := last_line_defined
              num_upvalues := num_upvalues
              num_params := num_params
              is_vararg := is_vararg
              max_stack_size := max_stack_size
              code := code
              constants := constants
              prototypes := prototypes
              debug_info := { lineinfo := lineinfo.map u32OfI32
                              locals := locals
                              upvalues := upvalues } }, l13)) := rfl

theorem isFuelErr_error {α : Type} (e : NomErr) :
    isFuelErr (Except.error e : Except NomErr α) = e.isFuel := by
  cases e with
  | Error ne => cases ne with | mk i k => cases k <;> rfl
  | Failure ne => cases ne with | mk i k => cases k <;> rfl

theorem isFuelErr_pbind {α β : Type} {r : PResult α} {k : α → List Nat → PResult β}
    (hr : isFuelErr r = false)
    (hk : ∀ a l, r = .ok (a, l) → isFuelErr (k a l) = false) :
    isFuelErr (pbind r k) = false := by
  cases r with
  | error e =>
    rw [isFuelErr_error] at hr
    simpa [pbind, isFuelErr_error] using hr
  | ok al => exact hk al.1 al.2 (by simp)

theorem ok_const_stable {α : Type} (v : α) : Stable (fun l => (.ok (v, l) : PResult α)) := by
  intro l t a r hr
  simp only [Except.ok.injEq, Prod.mk.injEq] at hr
  simp [hr.1, hr.2]

theorem ok_const_consume {α : Type} (v : α) : Consume (fun l => (.ok (v, l) : PResult α)) := by
  intro l a r hr
  simp only [Except.ok.injEq, Prod.mk.injEq] at hr
  simp [hr.2]

theorem ok_const_noFuel {α : Type} (v : α) : NoFuel (fun l => (.ok (v, l) : PResult α)) := by
  intro l; rfl


theorem u8_ok_shape {l : List Nat} {a : Nat} {r : List Nat}
    (h : Nom.u8 l = .ok (a, r)) : r = l.drop 1 ∧ 1 ≤ l.length := by
  cases l with
  | nil => simp [Nom.u8] at h
  | cons b rest =>
    simp only [Nom.u8, Except.ok.injEq, Prod.mk.injEq] at h
    simp [← h.2]

theorem u8_stable : Stable Nom.u8 := by
  intro l t a r h
  cases l with
  | nil => simp [Nom.u8] at h
  | cons b rest =>
    simp only [Nom.u8, Except.ok.injEq, Prod.mk.injEq] at h
    simp only [List.cons_append, Nom.u8, Except.ok.injEq, Prod.mk.injEq]
    exact ⟨h.1, by rw [h.2]⟩

theorem u8_noFuel : NoFuel Nom.u8 := by
  intro l; cases l <;> rfl

theorem be_u32_ok_shape {l : List Nat} {a : Nat} {r : List Nat}
    (h : Nom.be_u32 l = .ok (a, r)) : r = l.drop 4 ∧ 4 ≤ l.length := by
  rcases l with _ | ⟨b0, _ | ⟨b1, _ | ⟨b2, _ | ⟨b3, rest⟩⟩⟩⟩ <;>
    simp only [Nom.be_u32, Except.ok.injEq, Prod.mk.injEq, reduceCtorEq] at h
  simp [← h.2]

theorem be_u32_stable : Stable Nom.be_u32 := by
  intro l t a r h
  rcases l with _ | ⟨b0, _ | ⟨b1, _ | ⟨b2, _ | ⟨b3, rest⟩⟩⟩⟩ <;>
    simp only [Nom.be_u32, Except.ok.injEq, Prod.mk.injEq, reduceCtorEq] at h
  simp only [List.cons_append, Nom.be_u32, Except.ok.injEq, Prod.mk.injEq]
  exact ⟨h.1, by rw [h.2]⟩

theorem be_u32_noFuel : NoFuel Nom.be_u32 := by
  intro l
  rcases l with _ | ⟨b0, _ | ⟨b1, _ | ⟨b2, _ | ⟨b3, rest⟩⟩⟩⟩ <;> rfl

theorem le_u32_ok_shape {l : List Nat} {a : Nat} {r : List Nat}
    (h : Nom.le_u32 l = .ok (a, r)) : r = l.drop 4 ∧ 4 ≤ l.length := by
  rcases l with _ | ⟨b0, _ | ⟨b1, _ | ⟨b2, _ | ⟨b3, rest⟩⟩⟩⟩ <;>
    simp only [Nom.le_u32, Except.ok.injEq, Prod.mk.injEq, reduceCtorEq] at h
  simp [← h.2]

theorem le_u32_stable : Stable Nom.le_u32 := by
  intro l t a r h
  rcases l with _ | ⟨b0, _ | ⟨b1, _ | ⟨b2, _ | ⟨b3, rest⟩⟩⟩⟩ <;>
    simp only [Nom.le_u32, Except.ok.injEq, Prod.mk.injEq, reduceCtorEq] at h
  simp only [List.cons_append, Nom.le_u32, Except.ok.injEq, Prod.mk.injEq]
  exact ⟨h.1, by rw [h.2]⟩

theorem le_u32_noFuel : NoFuel Nom.le_u32 := by
  intro l
  rcases l with _ | ⟨b0, _ | ⟨b1, _ | ⟨b2, _ | ⟨b3, rest⟩⟩⟩⟩ <;> rfl

theorem be_u64_ok_shape {l : List Nat} {a : Nat} {r : List Nat}
    (h : Nom.be_u64 l = .ok (a, r)) : r = l.drop 8 ∧ 8 ≤ l.length := by
  rcases l with _ | ⟨b0, _ | ⟨b1, _ | ⟨b2, _ | ⟨b3, _ | ⟨b4, _ | ⟨b5, _ | ⟨b6, _ | ⟨b7, rest⟩⟩⟩⟩⟩⟩⟩⟩ <;>
    simp only [Nom.be_u64, Except.ok.injEq, Prod.mk.injEq, reduceCtorEq] at h
  simp [← h.2]

theorem be_u64_stable : Stable Nom.be_u64 := by
  intro l t a r h
  rcases l with _ | ⟨b0, _ | ⟨b1, _ | ⟨b2, _ | ⟨b3, _ | ⟨b4, _ | ⟨b5, _ | ⟨b6, _ | ⟨b7, rest⟩⟩⟩⟩⟩⟩⟩⟩ <;>
    simp only [Nom.be_u64, Except.ok.injEq, Prod.mk.injEq, reduceCtorEq] at h
  simp only [List.cons_append, Nom.be_u64, Except.ok.injEq, Prod.mk.injEq]
  exact ⟨h.1, by rw [h.2]⟩

theorem be_u64_noFuel : NoFuel Nom.be_u64 := by
  intro l
  rcases l with _ | ⟨b0, _ | ⟨b1, _ | ⟨b2, _ | ⟨b3, _ | ⟨b4, _ | ⟨b5, _ | ⟨b6, _ | ⟨b7, rest⟩⟩⟩⟩⟩⟩⟩⟩ <;> rfl

theorem le_u64_ok_shape {l : List Nat} {a : Nat} {r : List Nat}
    (h : Nom.le_u64 l = .ok (a, r)) : r = l.drop 8 ∧ 8 ≤ l.length := by
  rcases l with _ | ⟨b0, _ | ⟨b1, _ | ⟨b2, _ | ⟨b3, _ | ⟨b4, _ | ⟨b5, _ | ⟨b6, _ | ⟨b7, rest⟩⟩⟩⟩⟩⟩⟩⟩ <;>
    simp only [Nom.le_u64, Except.ok.injEq, Prod.mk.injEq, reduceCtorEq] at h
  simp [← h.2]

theorem le_u64_stable : Stable Nom.le_u64 := by
  intro l t a r h
  rcases l with _ | ⟨b0, _ | ⟨b1, _ | ⟨b2, _ | ⟨b3, _ | ⟨b4, _ | ⟨b5, _ | ⟨b6, _ | ⟨b7, rest⟩⟩⟩⟩⟩⟩⟩⟩ <;>
    simp only [Nom.le_u64, Except.ok.injEq, Prod.mk.injEq, reduceCtorEq] at h
  simp only [List.cons_append, Nom.le_u64, Except.ok.injEq, Prod.mk.injEq]
  exact ⟨h.1, by rw [h.2]⟩

theorem le_u64_noFuel : NoFuel Nom.le_u64 := by
  intro l
  rcases l with _ | ⟨b0, _ | ⟨b1, _ | ⟨b2, _ | ⟨b3, _ | ⟨b4, _ | ⟨b5, _ | ⟨b6, _ | ⟨b7, rest⟩⟩⟩⟩⟩⟩⟩⟩ <;> rfl

theorem take_ok_shape {n : Nat} {l a r : List Nat}
    (h : Nom.take n l = .ok (a, r)) :
    a = (l.take n).map (· % 256) ∧ r = l.drop n ∧ n ≤ l.length := by
  unfold Nom.take at h
  split at h
  case isTrue hn =>
    simp only [Except.ok.injEq, Prod.mk.injEq] at h
    exact ⟨h.1.symm, h.2.symm, hn⟩
  case isFalse => simp at h

theorem take_stable (n : Nat) : Stable (Nom.take n) := by
  intro l t a r h
  unfold Nom.take at h ⊢
  split at h
  case isTrue hn =>
    simp only [Except.ok.injEq, Prod.mk.injEq] at h
    rw [if_pos (by simp only [List.length_append]; omega)]
    rw [List.take_append_of_le_length hn, List.drop_append_of_le_length hn, h.1, h.2]
  case isFalse => simp at h

theorem take_noFuel (n : Nat) : NoFuel (Nom.take n) := by
  intro l; unfold Nom.take; split <;> rfl

theorem tag_ok_shape {t l a r : List Nat}
    (h : Nom.tag t l = .ok (a, r)) :
    a = t ∧ r = l.drop t.length ∧ t.length ≤ l.length ∧
      (l.take t.length).map (· % 256) = t := by
  unfold Nom.tag at h
  split at h
  case isTrue hc =>
    simp only [Except.ok.injEq, Prod.mk.injEq] at h
    exact ⟨h.1.symm, h.2.symm, hc.1, hc.2⟩
  case isFalse => simp at h

theorem tag_stable (t : List Nat) : Stable (Nom.tag t) := by
  intro l s a r h
  unfold Nom.tag at h ⊢
  split at h
  case isTrue hc =>
    simp only [Except.ok.injEq, Prod.mk.injEq] at h
    rw [if_pos ⟨by simp only [List.length_append]; omega,
      by rw [List.take_append_of_le_length hc.1]; exact hc.2⟩]
    rw [List.drop_append_of_le_length hc.1, h.2, h.1]
  case isFalse => simp at h

theorem tag_noFuel (t : List Nat) : NoFuel (Nom.tag t) := by
  intro l; unfold Nom.tag; split <;> rfl

theorem verify_u8_nil (pred : Nat → Bool) :
    Nom.verify_u8 pred [] = .error (.Error ⟨[], .Eof⟩) := rfl

theorem verify_u8_cons (pred : Nat → Bool) (b : Nat) (rest : List Nat) :
    Nom.verify_u8 pred (b :: rest) =
      if pred (b % 256) then .ok (b % 256, rest)
      else .error (.Error ⟨b :: rest, .Verify⟩) := rfl

theorem verify_u8_ok_shape {pred : Nat → Bool} {l : List Nat} {a : Nat} {r : List Nat}
    (h : Nom.verify_u8 pred l = .ok (a, r)) :
    r = l.drop 1 ∧ 1 ≤ l.length ∧ pred a = true := by
  cases l with
  | nil => simp [verify_u8_nil] at h
  | cons b rest =>
    rw [verify_u8_cons] at h
    split at h
    case isTrue hp =>
      simp only [Except.ok.injEq, Prod.mk.injEq] at h
      exact ⟨h.2.symm, by simp, by rw [← h.1]; exact hp⟩
    case isFalse => simp at h

theorem verify_u8_stable (pred : Nat → Bool) : Stable (Nom.verify_u8 pred) := by
  intro l t a r h
  cases l with
  | nil => simp [verify_u8_nil] at h
  | cons b rest =>
    rw [verify_u8_cons] at h
    rw [List.cons_append, verify_u8_cons]
    split at h
    case isTrue hp =>
      simp only [Except.ok.injEq, Prod.mk.injEq] at h
      rw [if_pos hp, h.1, h.2]
    case isFalse => simp at h

theorem verify_u8_noFuel (pred : Nat → Bool) : NoFuel (Nom.verify_u8 pred) := by
  intro l
  cases l with
  | nil => rfl
  | cons b rest => rw [verify_u8_cons]; split <;> rfl

theorem count_succ {α : Type} (p : List Nat → PResult α) (n : Nat) (l : List Nat) :
    Nom.count p (n + 1) l =
      (pbind (p l) fun a l1 =>
       pbind (Nom.count p n l1) fun as_ l2 =>
       .ok (a :: as_, l2)) := rfl

theorem count_ok_ext {α : Type} {p q : List Nat → PResult α}
    (hpq : ∀ l t v r, p l = .ok (v, r) → q (l ++ t) = .ok (v, r ++ t)) :
    ∀ n l t vs r, Nom.count p n l = .ok (vs, r) → Nom.count q n (l ++ t) = .ok (vs, r ++ t) := by
  intro n
  induction n with
  | zero =>
    intro l t vs r h
    simp only [Nom.count, Except.ok.injEq, Prod.mk.injEq] at h ⊢
    exact ⟨h.1, by rw [h.2]⟩
  | succ n ih =>
    intro l t vs r h
    rw [count_succ] at h
    rw [count_succ]
    obtain ⟨a, l1, h1, h2⟩ := pbind_eq_ok h
    obtain ⟨as_, l2, h3, h4⟩ := pbind_eq_ok h2
    rw [hpq l t a l1 h1, pbind_ok, ih l1 t as_ l2 h3, pbind_ok]
    simp only [Except.ok.injEq, Prod.mk.injEq] at h4 ⊢
    exact ⟨h4.1, by rw [h4.2]⟩

theorem count_stable {α : Type} {p : List Nat → PResult α} (hp : Stable p) (n : Nat) :
    Stable (Nom.count p n) := by
  intro l t vs r h
  exact count_ok_ext hp n l t vs r h

theorem count_consume {α : Type} {p : List Nat → PResult α} (hp : Consume p) (n : Nat) :
    Consume (Nom.count p n) := by
  induction n with
  | zero =>
    intro l vs r h
    simp only [Nom.count, Except.ok.injEq, Prod.mk.injEq] at h
    simp [h.2]
  | succ n ih =>
    intro l vs r h
    rw [count_succ] at h
    obtain ⟨a, l1, h1, h2⟩ := pbind_eq_ok h
    obtain ⟨as_, l2, h3, h4⟩ := pbind_eq_ok h2
    simp only [Except.ok.injEq, Prod.mk.injEq] at h4
    calc r.length = l2.length := by rw [h4.2]
    _ ≤ l1.length := ih l1 as_ l2 h3
    _ ≤ l.length := hp l a l1 h1

theorem count_noFuel {α : Type} {p : List Nat → PResult α} (hp : NoFuel p) (n : Nat) :
    NoFuel (Nom.count p n) := by
  induction n with
  | zero => intro l; rfl
  | succ n ih =>
    intro l
    rw [count_succ]
    refine isFuelErr_pbind (hp l) (fun a l1 _ => ?_)
    exact isFuelErr_pbind (ih l1) (fun as_ l2 _ => rfl)

theorem count_noFuel_bdd {α : Type} {p : List Nat → PResult α} {L : Nat}
    (hp : ∀ m, m.length ≤ L → isFuelErr (p m) = false) (hc : Consume p) :
    ∀ n l, l.length ≤ L → isFuelErr (Nom.count p n l) = false := by
  intro n
  induction n with
  | zero => intro l _; rfl
  | succ n ih =>
    intro l hl
    rw [count_succ]
    refine isFuelErr_pbind (hp l hl) (fun a l1 h1 => ?_)
    refine isFuelErr_pbind (ih l1 (le_trans (hc l a l1 h1) hl)) (fun as_ l2 _ => rfl)

theorem parse_integer_ok_shape {h : Header} {l : List Nat} {v : Int} {r : List Nat}
    (hok : parse_integer h l = .ok (v, r)) : r = l.drop 4 ∧ 4 ≤ l.length := by
  unfold parse_integer at hok
  cases hE : h.endianness
  case Big =>
    simp only [hE] at hok
    obtain ⟨w, l1, h1, h2⟩ := pbind_eq_ok hok
    simp only [Except.ok.injEq, Prod.mk.injEq] at h2
    have := be_u32_ok_shape h1
    exact ⟨by rw [← h2.2, this.1], this.2⟩
  case Little =>
    simp only [hE] at hok
    obtain ⟨w, l1, h1, h2⟩ := pbind_eq_ok hok
    simp only [Except.ok.injEq, Prod.mk.injEq] at h2
    have := le_u32_ok_shape h1
    exact ⟨by rw [← h2.2, this.1], this.2⟩

theorem parse_integer_stable (h : Header) : Stable (parse_integer h) := by
  intro l t a r hok
  unfold parse_integer at hok ⊢
  cases hE : h.endianness
  case Big =>
    simp only [hE] at hok
    simp only [hE]
    obtain ⟨w, l1, h1, h2⟩ := pbind_eq_ok hok
    rw [be_u32_stable l t w l1 h1, pbind_ok]
    simp only [Except.ok.injEq, Prod.mk.injEq] at h2 ⊢
    exact ⟨h2.1, by rw [h2.2]⟩
  case Little =>
    simp only [hE] at hok
    simp only [hE]
    obtain ⟨w, l1, h1, h2⟩ := pbind_eq_ok hok
    rw [le_u32_stable l t w l1 h1, pbind_ok]
    simp only [Except.ok.injEq, Prod.mk.injEq] at h2 ⊢
    exact ⟨h2.1, by rw [h2.2]⟩

theorem parse_integer_consume (h : Header) : Consume (parse_integer h) := by
  intro l a r hok
  have := parse_integer_ok_shape hok
  simp [this.1]

theorem parse_integer_noFuel (h : Header) : NoFuel (parse_integer h) := by
  intro l
  unfold parse_integer
  cases hE : h.endianness
  case Big =>
    simp only [hE]
    exact isFuelErr_pbind (be_u32_noFuel l) (fun a m _ => rfl)
  case Little =>
    simp only [hE]
    exact isFuelErr_pbind (le_u32_noFuel l) (fun a m _ => rfl)

theorem parse_size_t_ok_shape {h : Header} {l : List Nat} {v : Nat} {r : List Nat}
    (hok : parse_size_t h l = .ok (v, r)) :
    (r = l.drop 4 ∧ 4 ≤ l.length) ∨ (r = l.drop 8 ∧ 8 ≤ l.length) := by
  unfold parse_size_t at hok
  split at hok
  · cases hE : h.endianness
    case Big =>
      simp only [hE] at hok
      exact .inl (be_u32_ok_shape hok)
    case Little =>
      simp only [hE] at hok
      exact .inl (le_u32_ok_shape hok)
  · split at hok
    · cases hE : h.endianness
      case Big =>
        simp only [hE] at hok
        exact .inr (be_u64_ok_shape hok)
      case Little =>
        simp only [hE] at hok
        exact .inr (le_u64_ok_shape hok)
    · simp at hok

theorem parse_size_t_consume_lt {h : Header} {l : List Nat} {v : Nat} {r : List Nat}
    (hok : parse_size_t h l = .ok (v, r)) : r.length < l.length := by
  rcases parse_size_t_ok_shape hok with ⟨hr, hl⟩ | ⟨hr, hl⟩ <;> subst hr <;>
    simp only [List.length_drop] <;> omega

theorem parse_size_t_stable (h : Header) : Stable (parse_size_t h) := by
  intro l t a r hok
  unfold parse_size_t at hok ⊢
  split at hok
  case isTrue h4 =>
    rw [if_pos h4]
    cases hE : h.endianness
    case Big =>
      simp only [hE] at hok
      simp only [hE]
      exact be_u32_stable l t a r hok
    case Little =>
      simp only [hE] at hok
      simp only [hE]
      exact le_u32_stable l t a r hok
  case isFalse h4 =>
    rw [if_neg h4]
    split at hok
    case isTrue h8 =>
      rw [if_pos h8]
      cases hE : h.endianness
      case Big =>
        simp only [hE] at hok
        simp only [hE]
        exact be_u64_stable l t a r hok
      case Little =>
        simp only [hE] at hok
        simp only [hE]
        exact le_u64_stable l t a r hok
    case isFalse h8 => simp at hok

theorem parse_size_t_noFuel (h : Header) : NoFuel (parse_size_t h) := by
  intro l
  unfold parse_size_t
  split
  · cases hE : h.endianness
    case Big =>
      simp only [hE]
      exact be_u32_noFuel l
    case Little =>
      simp only [hE]
      exact le_u32_noFuel l
  · split
    · cases hE : h.endianness
      case Big =>
        simp only [hE]
        exact be_u64_noFuel l
      case Little =>
        simp only [hE]
        exact le_u64_noFuel l
    · rfl

theorem parse_string_stable (h : Header) : Stable (parse_string h) := by
  intro l t a r hok
  unfold parse_string at hok ⊢
  obtain ⟨len, l1, h1, h2⟩ := pbind_eq_ok hok
  rw [parse_size_t_stable h l t len l1 h1, pbind_ok]
  by_cases h0 : len = 0
  · rw [if_pos h0] at h2 ⊢
    simp only [Except.ok.injEq, Prod.mk.injEq] at h2 ⊢
    exact ⟨h2.1, by rw [h2.2]⟩
  · rw [if_neg h0] at h2 ⊢
    obtain ⟨bytes, l2, h3, h4⟩ := pbind_eq_ok h2
    rw [take_stable (len - 1) l1 t bytes l2 h3, pbind_ok]
    obtain ⟨u, l3, h5, h6⟩ := pbind_eq_ok h4
    rw [tag_stable [0] l2 t u l3 h5, pbind_ok]
    simp only [Except.ok.injEq, Prod.mk.injEq] at h6 ⊢
    exact ⟨h6.1, by rw [h6.2]⟩

theorem parse_string_consume_lt (h : Header) :
    ∀ l a r, parse_string h l = .ok (a, r) → r.length < l.length := by
  intro l a r hok
  unfold parse_string at hok
  obtain ⟨len, l1, h1, h2⟩ := pbind_eq_ok hok
  have hlt := parse_size_t_consume_lt h1
  by_cases h0 : len = 0
  · rw [if_pos h0] at h2
    simp only [Except.ok.injEq, Prod.mk.injEq] at h2
    rw [← h2.2]
    exact hlt
  · rw [if_neg h0] at h2
    obtain ⟨bytes, l2, h3, h4⟩ := pbind_eq_ok h2
    obtain ⟨u, l3, h5, h6⟩ := pbind_eq_ok h4
    simp only [Except.ok.injEq, Prod.mk.injEq] at h6
    have ht := (take_ok_shape h3).2.1
    have hg := (tag_ok_shape h5).2.1
    rw [← h6.2, hg, ht]
    simp only [List.length_drop]
    omega

theorem parse_string_consume (h : Header) : Consume (parse_string h) := by
  intro l a r hok
  exact le_of_lt (parse_string_consume_lt h l a r hok)

theorem parse_string_noFuel (h : Header) : NoFuel (parse_string h) := by
  intro l
  unfold parse_string
  refine isFuelErr_pbind (parse_size_t_noFuel h l) (fun len l1 _ => ?_)
  by_cases h0 : len = 0
  · rw [if_pos h0]; rfl
  · rw [if_neg h0]
    refine isFuelErr_pbind (take_noFuel (len - 1) l1) (fun bytes l2 _ => ?_)
    exact isFuelErr_pbind (tag_noFuel [0] l2) (fun u l3 _ => rfl)

theorem parse_instruction_ok_shape {h : Header} {l : List Nat} {v : Nat} {r : List Nat}
    (hok : parse_instruction h l = .ok (v, r)) : r = l.drop 4 ∧ 4 ≤ l.length := by
  unfold parse_instruction at hok
  cases hE : h.endianness
  case Big =>
    simp only [hE] at hok
    exact be_u32_ok_shape hok
  case Little =>
    simp only [hE] at hok
    exact le_u32_ok_shape hok

theorem parse_instruction_stable (h : Header) : Stable (parse_instruction h) := by
  intro l t a r hok
  unfold parse_instruction at hok ⊢
  cases hE : h.endianness
  case Big =>
    simp only [hE] at hok
    simp only [hE]
    exact be_u32_stable l t a r hok
  case Little =>
    simp only [hE] at hok
    simp only [hE]
    exact le_u32_stable l t a r hok

theorem parse_instruction_consume (h : Header) : Consume (parse_instruction h) := by
  intro l a r hok
  have := parse_instruction_ok_shape hok
  simp [this.1]

theorem parse_instruction_noFuel (h : Header) : NoFuel (parse_instruction h) := by
  intro l
  unfold parse_instruction
  cases hE : h.endianness
  case Big =>
    simp only [hE]
    exact be_u32_noFuel l
  case Little =>
    simp only [hE]
    exact le_u32_noFuel l

theorem parse_number_stable (h : Header) : Stable (parse_number h) := by
  intro l t a r hok
  unfold parse_number at hok ⊢
  obtain ⟨bytes, l1, h1, h2⟩ := pbind_eq_ok hok
  rw [take_stable h.size_number l t bytes l1 h1, pbind_ok]
  split at h2
  case isTrue h8 =>
    rw [if_pos h8]
    cases hE : h.endianness
    case Big =>
      simp only [hE] at h2
      simp only [hE]
      simp only [Except.ok.injEq, Prod.mk.injEq] at h2 ⊢
      exact ⟨h2.1, by rw [h2.2]⟩
    case Little =>
      simp only [hE] at h2
      simp only [hE]
      simp only [Except.ok.injEq, Prod.mk.injEq] at h2 ⊢
      exact ⟨h2.1, by rw [h2.2]⟩
  case isFalse h8 => simp at h2

theorem parse_number_consume (h : Header) : Consume (parse_number h) := by
  intro l a r hok
  unfold parse_number at hok
  obtain ⟨bytes, l1, h1, h2⟩ := pbind_eq_ok hok
  have ht := (take_ok_shape h1).2.1
  split at h2
  case isTrue h8 =>
    cases hE : h.endianness
    case Big =>
      simp only [hE] at h2
      simp only [Except.ok.injEq, Prod.mk.injEq] at h2
      rw [← h2.2, ht]
      simp
    case Little =>
      simp only [hE] at h2
      simp only [Except.ok.injEq, Prod.mk.injEq] at h2
      rw [← h2.2, ht]
      simp
  case isFalse h8 => simp at h2

theorem parse_number_noFuel (h : Header) : NoFuel (parse_number h) := by
  intro l
  unfold parse_number
  refine isFuelErr_pbind (take_noFuel h.size_number l) (fun bytes l1 _ => ?_)
  split
  · cases hE : h.endianness
    case Big => simp only [hE]; rfl
    case Little => simp only [hE]; rfl
  · rfl

theorem parse_constant_stable (h : Header) : Stable (parse_constant h) := by
  intro l t a r hok
  unfold parse_constant at hok ⊢
  obtain ⟨tg, l1, h1, h2⟩ := pbind_eq_ok hok
  rw [u8_stable l t tg l1 h1, pbind_ok]
  by_cases e0 : tg = 0
  · rw [if_pos e0] at h2 ⊢
    simp only [Except.ok.injEq, Prod.mk.injEq] at h2 ⊢
    exact ⟨h2.1, by rw [h2.2]⟩
  · rw [if_neg e0] at h2 ⊢
    by_cases e1 : tg = 1
    · rw [if_pos e1] at h2 ⊢
      obtain ⟨v, l2, h3, h4⟩ := pbind_eq_ok h2
      rw [u8_stable l1 t v l2 h3, pbind_ok]
      simp only [Except.ok.injEq, Prod.mk.injEq] at h4 ⊢
      exact ⟨h4.1, by rw [h4.2]⟩
    · rw [if_neg e1] at h2 ⊢
      by_cases e3 : tg = 3
      · rw [if_pos e3] at h2 ⊢
        obtain ⟨n, l2, h3, h4⟩ := pbind_eq_ok h2
        rw [parse_number_stable h l1 t n l2 h3, pbind_ok]
        simp only [Except.ok.injEq, Prod.mk.injEq] at h4 ⊢
        exact ⟨h4.1, by rw [h4.2]⟩
      · rw [if_neg e3] at h2 ⊢
        by_cases e4 : tg = 4
        · rw [if_pos e4] at h2 ⊢
          obtain ⟨s, l2, h3, h4⟩ := pbind_eq_ok h2
          rw [parse_string_stable h l1 t s l2 h3, pbind_ok]
          simp only [Except.ok.injEq, Prod.mk.injEq] at h4 ⊢
          exact ⟨h4.1, by rw [h4.2]⟩
        · rw [if_neg e4] at h2
          simp at h2

theorem parse_constant_consume (h : Header) : Consume (parse_constant h) := by
  intro l a r hok
  unfold parse_constant at hok
  obtain ⟨tg, l1, h1, h2⟩ := pbind_eq_ok hok
  have hu := (u8_ok_shape h1).1
  have hl1 : l1.length ≤ l.length := by rw [hu]; simp
  by_cases e0 : tg = 0
  · rw [if_pos e0] at h2
    simp only [Except.ok.injEq, Prod.mk.injEq] at h2
    rw [← h2.2]; exact hl1
  · rw [if_neg e0] at h2
    by_cases e1 : tg = 1
    · rw [if_pos e1] at h2
      obtain ⟨v, l2, h3, h4⟩ := pbind_eq_ok h2
      simp only [Except.ok.injEq, Prod.mk.injEq] at h4
      have := (u8_ok_shape h3).1
      rw [← h4.2, this]
      simp only [List.length_drop]
      omega
    · rw [if_neg e1] at h2
      by_cases e3 : tg = 3
      · rw [if_pos e3] at h2
        obtain ⟨n, l2, h3, h4⟩ := pbind_eq_ok h2
        simp only [Except.ok.injEq, Prod.mk.injEq] at h4
        have := parse_number_consume h l1 n l2 h3
        rw [← h4.2]
        omega
      · rw [if_neg e3] at h2
        by_cases e4 : tg = 4
        · rw [if_pos e4] at h2
          obtain ⟨s, l2, h3, h4⟩ := pbind_eq_ok h2
          simp only [Except.ok.injEq, Prod.mk.injEq] at h4
          have := parse_string_consume h l1 s l2 h3
          rw [← h4.2]
          omega
        · rw [if_neg e4] at h2
          simp at h2

theorem parse_constant_noFuel (h : Header) : NoFuel (parse_constant h) := by
  intro l
  unfold parse_constant
  refine isFuelErr_pbind (u8_noFuel l) (fun tg l1 _ => ?_)
  by_cases e0 : tg = 0
  · rw [if_pos e0]; rfl
  · rw [if_neg e0]
    by_cases e1 : tg = 1
    · rw [if_pos e1]
      exact isFuelErr_pbind (u8_noFuel l1) (fun v l2 _ => rfl)
    · rw [if_neg e1]
      by_cases e3 : tg = 3
      · rw [if_pos e3]
        exact isFuelErr_pbind (parse_number_noFuel h l1) (fun n l2 _ => rfl)
      · rw [if_neg e3]
        by_cases e4 : tg = 4
        · rw [if_pos e4]
          exact isFuelErr_pbind (parse_string_noFuel h l1) (fun s l2 _ => rfl)
        · rw [if_neg e4]; rfl

theorem parse_local_variable_stable (h : Header) : Stable (parse_local_variable h) := by
  intro l t a r hok
  unfold parse_local_variable at hok ⊢
  obtain ⟨vn, l1, h1, h2⟩ := pbind_eq_ok hok
  rw [parse_string_stable h l t vn l1 h1, pbind_ok]
  obtain ⟨sp, l2, h3, h4⟩ := pbind_eq_ok h2
  rw [parse_integer_stable h l1 t sp l2 h3, pbind_ok]
  obtain ⟨ep, l3, h5, h6⟩ := pbind_eq_ok h4
  rw [parse_integer_stable h l2 t ep l3 h5, pbind_ok]
  simp only [Except.ok.injEq, Prod.mk.injEq] at h6 ⊢
  exact ⟨h6.1, by rw [h6.2]⟩

theorem parse_local_variable_consume (h : Header) : Consume (parse_local_variable h) := by
  intro l a r hok
  unfold parse_local_variable at hok
  obtain ⟨vn, l1, h1, h2⟩ := pbind_eq_ok hok
  obtain ⟨sp, l2, h3, h4⟩ := pbind_eq_ok h2
  obtain ⟨ep, l3, h5, h6⟩ := pbind_eq_ok h4
  simp only [Except.ok.injEq, Prod.mk.injEq] at h6
  have c1 := parse_string_consume h l vn l1 h1
  have c2 := parse_integer_consume h l1 sp l2 h3
  have c3 := parse_integer_consume h l2 ep l3 h5
  rw [← h6.2]
  omega

theorem parse_local_variable_noFuel (h : Header) : NoFuel (parse_local_variable h) := by
  intro l
  unfold parse_local_variable
  refine isFuelErr_pbind (parse_string_noFuel h l) (fun vn l1 _ => ?_)
  refine isFuelErr_pbind (parse_integer_noFuel h l1) (fun sp l2 _ => ?_)
  exact isFuelErr_pbind (parse_integer_noFuel h l2) (fun ep l3 _ => rfl)

theorem parse_section_ok_ext {α : Type} {h : Header} {p q : List Nat → PResult α}
    (hpq : ∀ l t v r, p l = .ok (v, r) → q (l ++ t) = .ok (v, r ++ t)) :
    ∀ l t vs r, parse_section h p l = .ok (vs, r) →
      parse_section h q (l ++ t) = .ok (vs, r ++ t) := by
  intro l t vs r hok
  unfold parse_section at hok ⊢
  obtain ⟨len, l1, h1, h2⟩ := pbind_eq_ok hok
  rw [parse_integer_stable h l t len l1 h1, pbind_ok]
  cases hu : usizeOfI32 len
  case none => rw [hu] at h2; simp at h2
  case some n =>
    rw [hu] at h2
    exact count_ok_ext hpq n l1 t vs r h2

theorem parse_section_stable {α : Type} {h : Header} {p : List Nat → PResult α}
    (hp : Stable p) : Stable (parse_section h p) := by
  intro l t vs r hok
  exact parse_section_ok_ext hp l t vs r hok

theorem parse_section_consume {α : Type} {h : Header} {p : List Nat → PResult α}
    (hp : Consume p) : Consume (parse_section h p) := by
  intro l vs r hok
  unfold parse_section at hok
  obtain ⟨len, l1, h1, h2⟩ := pbind_eq_ok hok
  have c1 := parse_integer_consume h l len l1 h1
  cases hu : usizeOfI32 len
  case none => rw [hu] at h2; simp at h2
  case some n =>
    rw [hu] at h2
    have := count_consume hp n l1 vs r h2
    omega

theorem parse_section_noFuel {α : Type} {h : Header} {p : List Nat → PResult α}
    (hp : NoFuel p) : NoFuel (parse_section h p) := by
  intro l
  unfold parse_section
  refine isFuelErr_pbind (parse_integer_noFuel h l) (fun len l1 _ => ?_)
  cases hu : usizeOfI32 len
  case none => rfl
  case some n => exact count_noFuel hp n l1

theorem parse_section_noFuel_bdd {α : Type} {h : Header} {p : List Nat → PResult α} {L : Nat}
    (hp : ∀ m, m.length ≤ L → isFuelErr (p m) = false) (hc : Consume p) :
    ∀ l, l.length ≤ L → isFuelErr (parse_section h p l) = false := by
  intro l hl
  unfold parse_section
  refine isFuelErr_pbind (parse_integer_noFuel h l) (fun len l1 h1 => ?_)
  have c1 := parse_integer_consume h l len l1 h1
  cases hu : usizeOfI32 len
  case none => rfl
  case some n => exact count_noFuel_bdd hp hc n l1 (le_trans c1 hl)

theorem parse_function_consume (h : Header) : ∀ fuel, Consume (parse_function h fuel) := by
  intro fuel
  induction fuel with
  | zero =>
    intro l a r hok
    rw [parse_function_zero] at hok
    simp at hok
  | succ fuel ih =>
    intro l a r hok
    rw [parse_function_succ] at hok
    obtain ⟨sn, l1, h1, h2⟩ := pbind_eq_ok hok
    obtain ⟨ld, l2, h3, h4⟩ := pbind_eq_ok h2
    obtain ⟨lld, l3, h5, h6⟩ := pbind_eq_ok h4
    obtain ⟨nu, l4, h7, h8⟩ := pbind_eq_ok h6
    obtain ⟨np, l5, h9, h10⟩ := pbind_eq_ok h8
    obtain ⟨iv, l6, h11, h12⟩ := pbind_eq_ok h10
    obtain ⟨ms, l7, h13, h14⟩ := pbind_eq_ok h12
    obtain ⟨code, l8, h15, h16⟩ := pbind_eq_ok h14
    obtain ⟨consts, l9, h17, h18⟩ := pbind_eq_ok h16
    obtain ⟨protos, l10, h19, h20⟩ := pbind_eq_ok h18
    obtain ⟨li, l11, h21, h22⟩ := pbind_eq_ok h20
    obtain ⟨locs, l12, h23, h24⟩ := pbind_eq_ok h22
    obtain ⟨ups, l13, h25, h26⟩ := pbind_eq_ok h24
    simp only [Except.ok.injEq, Prod.mk.injEq] at h26
    have c1 := parse_string_consume h _ _ _ h1
    have c2 := parse_integer_consume h _ _ _ h3
    have c3 := parse_integer_consume h _ _ _ h5
    have c4 : l4.length ≤ l3.length := by rw [(u8_ok_shape h7).1]; simp
    have c5 : l5.length ≤ l4.length := by rw [(u8_ok_shape h9).1]; simp
    have c6 : l6.length ≤ l5.length := by rw [(u8_ok_shape h11).1]; simp
    have c7 : l7.length ≤ l6.length := by rw [(u8_ok_shape h13).1]; simp
    have c8 := parse_section_consume (parse_instruction_consume h) _ _ _ h15
    have c9 := parse_section_consume (parse_constant_consume h) _ _ _ h17
    have c10 := parse_section_consume ih _ _ _ h19
    have c11 := parse_section_consume (parse_integer_consume h) _ _ _ h21
    have c12 := parse_section_consume (parse_local_variable_consume h) _ _ _ h23
    have c13 := parse_section_consume (parse_string_consume h) _ _ _ h25
    rw [← h26.2]
    omega

theorem parse_function_noFuel_bdd (h : Header) :
    ∀ fuel l, l.length < fuel → isFuelErr (parse_function h fuel l) = false := by
  intro fuel
  induction fuel with
  | zero => intro l hl; omega
  | succ fuel ih =>
    intro l hl
    rw [parse_function_succ]
    refine isFuelErr_pbind (parse_string_noFuel h l) (fun sn l1 h1 => ?_)
    have d1 := parse_string_consume_lt h l sn l1 h1
    refine isFuelErr_pbind (parse_integer_noFuel h l1) (fun ld l2 h3 => ?_)
    have d2 := parse_integer_consume h _ _ _ h3
    refine isFuelErr_pbind (parse_integer_noFuel h l2) (fun lld l3 h5 => ?_)
    have d3 := parse_integer_consume h _ _ _ h5
    refine isFuelErr_pbind (u8_noFuel l3) (fun nu l4 h7 => ?_)
    have d4 : l4.length ≤ l3.length := by rw [(u8_ok_shape h7).1]; simp
    refine isFuelErr_pbind (u8_noFuel l4) (fun np l5 h9 => ?_)
    have d5 : l5.length ≤ l4.length := by rw [(u8_ok_shape h9).1]; simp
    refine isFuelErr_pbind (u8_noFuel l5) (fun iv l6 h11 => ?_)
    have d6 : l6.length ≤ l5.length := by rw [(u8_ok_shape h11).1]; simp
    refine isFuelErr_pbind (u8_noFuel l6) (fun ms l7 h13 => ?_)
    have d7 : l7.length ≤ l6.length := by rw [(u8_ok_shape h13).1]; simp
    refine isFuelErr_pbind (parse_section_noFuel (parse_instruction_noFuel h) l7)
      (fun code l8 h15 => ?_)
    have d8 := parse_section_consume (parse_instruction_consume h) _ _ _ h15
    refine isFuelErr_pbind (parse_section_noFuel (parse_constant_noFuel h) l8)
      (fun consts l9 h17 => ?_)
    have d9 := parse_section_consume (parse_constant_consume h) _ _ _ h17
    refine isFuelErr_pbind
      (parse_section_noFuel_bdd (fun m hm => ih m (by omega)) (parse_function_consume h fuel)
        l9 (le_refl l9.length))
      (fun protos l10 h19 => ?_)
    refine isFuelErr_pbind (parse_section_noFuel (parse_integer_noFuel h) l10)
      (fun li l11 h21 => ?_)
    refine isFuelErr_pbind (parse_section_noFuel (parse_local_variable_noFuel h) l11)
      (fun locs l12 h23 => ?_)
    refine isFuelErr_pbind (parse_section_noFuel (parse_string_noFuel h) l12)
      (fun ups l13 h25 => ?_)
    rfl

theorem parse_function_ok_ext (h : Header) :
    ∀ fuel fuel' l t v r, fuel ≤ fuel' →
      parse_function h fuel l = .ok (v, r) →
      parse_function h fuel' (l ++ t) = .ok (v, r ++ t) := by
  intro fuel
  induction fuel with
  | zero =>
    intro fuel' l t v r _ hok
    rw [parse_function_zero] at hok
    simp at hok
  | succ fuel ih =>
    intro fuel' l t v r hle hok
    obtain ⟨fuel'', rfl⟩ : ∃ f, fuel' = f + 1 := ⟨fuel' - 1, by omega⟩
    rw [parse_function_succ] at hok
    rw [parse_function_succ]
    obtain ⟨sn, l1, h1, h2⟩ := pbind_eq_ok hok
    rw [parse_string_stable h l t sn l1 h1, pbind_ok]
    obtain ⟨ld, l2, h3, h4⟩ := pbind_eq_ok h2
    rw [parse_integer_stable h l1 t ld l2 h3, pbind_ok]
    obtain ⟨lld, l3, h5, h6⟩ := pbind_eq_ok h4
    rw [parse_integer_stable h l2 t lld l3 h5, pbind_ok]
    obtain ⟨nu, l4, h7, h8⟩ := pbind_eq_ok h6
    rw [u8_stable l3 t nu l4 h7, pbind_ok]
    obtain ⟨np, l5, h9, h10⟩ := pbind_eq_ok h8
    rw [u8_stable l4 t np l5 h9, pbind_ok]
    obtain ⟨iv, l6, h11, h12⟩ := pbind_eq_ok h10
    rw [u8_stable l5 t iv l6 h11, pbind_ok]
    obtain ⟨ms, l7, h13, h14⟩ := pbind_eq_ok h12
    rw [u8_stable l6 t ms l7 h13, pbind_ok]
    obtain ⟨code, l8, h15, h16⟩ := pbind_eq_ok h14
    rw [parse_section_stable (parse_instruction_stable h) l7 t code l8 h15, pbind_ok]
    obtain ⟨consts, l9, h17, h18⟩ := pbind_eq_ok h16
    rw [parse_section_stable (parse_constant_stable h) l8 t consts l9 h17, pbind_ok]
    obtain ⟨protos, l10, h19, h20⟩ := pbind_eq_ok h18
    rw [parse_section_ok_ext
      (fun m s v0 r0 hm => ih fuel'' m s v0 r0 (by omega) hm) l9 t protos l10 h19, pbind_ok]
    obtain ⟨li, l11, h21, h22⟩ := pbind_eq_ok h20
    rw [parse_section_stable (parse_integer_stable h) l10 t li l11 h21, pbind_ok]
    obtain ⟨locs, l12, h23, h24⟩ := pbind_eq_ok h22
    rw [parse_section_stable (parse_local_variable_stable h) l11 t locs l12 h23, pbind_ok]
    obtain ⟨ups, l13, h25, h26⟩ := pbind_eq_ok h24
    rw [parse_section_stable (parse_string_stable h) l12 t ups l13 h25, pbind_ok]
    simp only [Except.ok.injEq, Prod.mk.injEq] at h26 ⊢
    exact ⟨h26.1, by rw [h26.2]⟩

theorem parse_function_run_ext {h : Header} {l t : List Nat} {v : FunctionPrototype}
    {r : List Nat} (hok : parse_function_run h l = .ok (v, r)) :
    parse_function_run h (l ++ t) = .ok (v, r ++ t) := by
  unfold parse_function_run at hok ⊢
  exact parse_function_ok_ext h (l.length + 1) ((l ++ t).length + 1) l t v r
    (by simp only [List.length_append]; omega) hok

theorem parse_header_stable : Stable parse_header := by
  intro l t a r hok
  unfold parse_header at hok ⊢
  obtain ⟨m, l1, h1, h2⟩ := pbind_eq_ok hok
  rw [tag_stable _ l t m l1 h1, pbind_ok]
  obtain ⟨ver, l2, h3, h4⟩ := pbind_eq_ok h2
  rw [verify_u8_stable _ l1 t ver l2 h3, pbind_ok]
  obtain ⟨fmt, l3, h5, h6⟩ := pbind_eq_ok h4
  rw [verify_u8_stable _ l2 t fmt l3 h5, pbind_ok]
  obtain ⟨eb, l4, h7, h8⟩ := pbind_eq_ok h6
  rw [u8_stable l3 t eb l4 h7, pbind_ok]
  obtain ⟨si, l5, h9, h10⟩ := pbind_eq_ok h8
  rw [verify_u8_stable _ l4 t si l5 h9, pbind_ok]
  obtain ⟨ss, l6, h11, h12⟩ := pbind_eq_ok h10
  rw [verify_u8_stable _ l5 t ss l6 h11, pbind_ok]
  obtain ⟨sI, l7, h13, h14⟩ := pbind_eq_ok h12
  rw [verify_u8_stable _ l6 t sI l7 h13, pbind_ok]
  obtain ⟨sn, l8, h15, h16⟩ := pbind_eq_ok h14
  rw [verify_u8_stable _ l7 t sn l8 h15, pbind_ok]
  obtain ⟨ib, l9, h17, h18⟩ := pbind_eq_ok h16
  rw [u8_stable l8 t ib l9 h17, pbind_ok]
  simp only [Except.ok.injEq, Prod.mk.injEq] at h18 ⊢
  exact ⟨h18.1, by rw [h18.2]⟩

theorem parse_lua_bytecode_ok_elim {input : List Nat}
    (hok : isOkB (parse_lua_bytecode input) = true) :
    ∃ hd l1 fp, parse_header input = .ok (hd, l1) ∧
      parse_function_run hd l1 = .ok (fp, []) := by
  unfold parse_lua_bytecode at hok
  cases hh : parse_header input
  case error e => simp [hh, isOkB] at hok
  case ok pair =>
    obtain ⟨hd, l1⟩ := pair
    simp only [hh] at hok
    cases hf : parse_function_run hd l1
    case error e => simp [hf, isOkB] at hok
    case ok pair2 =>
      obtain ⟨fp, l2⟩ := pair2
      simp only [hf] at hok
      by_cases h2 : l2 = []
      · subst h2
        exact ⟨hd, l1, fp, rfl, hf⟩
      · rw [if_neg h2] at hok
        simp [isOkB] at hok

theorem parse_lua_bytecode_trailing {input : List Nat} {hd : Header}
    {l1 : List Nat} {fp : FunctionPrototype} {r : List Nat}
    (h1 : parse_header input = .ok (hd, l1))
    (h2 : parse_function_run hd l1 = .ok (fp, r)) (hr : r ≠ []) :
    parse_lua_bytecode input = .error (.Error ⟨r, .Eof⟩) := by
  unfold parse_lua_bytecode
  simp only [h1, h2]
  rw [if_neg hr]

theorem parse_lua_bytecode_append_not_ok {p ext : List Nat}
    (hok : isOkB (parse_lua_bytecode p) = true) (hext : ext ≠ []) :
    isOkB (parse_lua_bytecode (p ++ ext)) = false := by
  obtain ⟨hd, l1, fp, hh, hf⟩ := parse_lua_bytecode_ok_elim hok
  have hh' : parse_header (p ++ ext) = .ok (hd, l1 ++ ext) :=
    parse_header_stable p ext hd l1 hh
  have hf' : parse_function_run hd (l1 ++ ext) = .ok (fp, ext) := by
    have := parse_function_run_ext (t := ext) hf
    simpa using this
  rw [parse_lua_bytecode_trailing hh' hf' hext]
  rfl

theorem parse_string_zero_len {h : Header} {l l1 : List Nat}
    (hs : parse_size_t h l = .ok (0, l1)) : parse_string h l = .ok ([], l1) := by
  unfold parse_string
  rw [hs, pbind_ok, if_pos rfl]

theorem parse_string_content {h : Header} {l : List Nat} {n : Nat}
    {l1 content : List Nat} {term : Nat} {r2 : List Nat}
    (hs : parse_size_t h l = .ok (n, l1)) (hn : 1 ≤ n)
    (hl1 : l1 = content ++ term :: r2) (hc : content.length = n - 1) :
    (term % 256 = 0 → parse_string h l = .ok (utf8Lossy (content.map (· % 256)), r2)) ∧
    (term % 256 ≠ 0 → parse_string h l = .error (.Error ⟨term :: r2, .Tag⟩)) := by
  unfold parse_string
  rw [hs, pbind_ok, if_neg (by omega)]
  subst hl1
  have htake : Nom.take (n - 1) (content ++ term :: r2) =
      .ok (content.map (· % 256), term :: r2) := by
    unfold Nom.take
    rw [if_pos (by simp only [List.length_append]; omega)]
    rw [← hc, List.take_left, List.drop_left]
  rw [htake, pbind_ok]
  constructor
  · intro hterm
    have htag : Nom.tag [0] (term :: r2) = .ok ([0], r2) := by
      unfold Nom.tag
      rw [if_pos ⟨by simp, by simp [hterm]⟩]
      simp
    rw [htag, pbind_ok]
  · intro hterm
    have htag : Nom.tag [0] (term :: r2) = .error (.Error ⟨term :: r2, .Tag⟩) := by
      unfold Nom.tag
      rw [if_neg (by simp [hterm])]
    rw [htag, pbind_error]

theorem parse_string_content_truncated {h : Header} {l : List Nat} {n : Nat}
    {l1 : List Nat} (hs : parse_size_t h l = .ok (n, l1)) (hn : 1 ≤ n)
    (hshort : l1.length < n - 1) :
    parse_string h l = .error (.Error ⟨l1, .Eof⟩) := by
  unfold parse_string
  rw [hs, pbind_ok, if_neg (by omega)]
  have htake : Nom.take (n - 1) l1 = .error (.Error ⟨l1, .Eof⟩) := by
    unfold Nom.take
    rw [if_neg (by omega)]
  rw [htake, pbind_error]

theorem parse_string_term_missing {h : Header} {l : List Nat} {n : Nat}
    {l1 : List Nat} (hs : parse_size_t h l = .ok (n, l1)) (hn : 1 ≤ n)
    (hexact : l1.length = n - 1) :
    parse_string h l = .error (.Error ⟨[], .Tag⟩) := by
  unfold parse_string
  rw [hs, pbind_ok, if_neg (by omega)]
  have htake : Nom.take (n - 1) l1 = .ok (l1.map (· % 256), []) := by
    unfold Nom.take
    rw [if_pos (by omega)]
    rw [← hexact, List.take_length, List.drop_length]
  rw [htake, pbind_ok]
  have htag : Nom.tag [0] [] = .error (.Error ⟨[], .Tag⟩) := by
    unfold Nom.tag
    rw [if_neg (by simp)]
  rw [htag, pbind_error]

/-- Claim C1 (code bug): the claim states that `b` returns the 9-bit field
at bits [23,32) and `c` the 9-bit field at bits [14,23) (layout OP, A, C,
B low-to-high, which is exactly what the code's own `POS_C = 14` /
`POS_B = 23` constants and Lua 5.1's `lopcodes.h` define).  The code
instead extracts the field at `POS_C` in `Instruction::b` and the field
at `POS_B` in `Instruction::c` — the two accessors are swapped.  At the
word `(5 << 23) | (3 << 14) = 41992192`, `b` evaluates to 3 (the C-field)
and `c` to 5 (the B-field), contradicting the claimed layout; `a` and
`bx` match the claim. -/
theorem C1_b_c_accessors_swapped :
    Instruction.a 41992192 = 0 ∧
    Instruction.b 41992192 = 3 ∧
    Instruction.c 41992192 = 5 ∧
    Instruction.bx 41992192 = 2563 ∧
    Instruction.b 41992192 ≠ (41992192 >>> 23) % 512 ∧
    Instruction.c 41992192 ≠ (41992192 >>> 14) % 512 := by
  refine ⟨rfl, rfl, rfl, rfl, by decide, by decide⟩

/-- Claim C2 (code bug): the claim states that for an opcode field `≥ 38`
the opcode operation fails with an `InvalidOpcode` error value and never
panics.  The code calls `Opcode::try_from(op).unwrap()`: for `op ≥ 38`
the conversion yields no opcode and the `unwrap` panics — no error value
is returned (modelled as `none`).  For every `op < 38` the conversion
does return the corresponding opcode (that half of the claim holds). -/
theorem C2_invalid_opcode_unwrap_panics :
    Instruction.opcode 38 = none ∧
    ((List.range 64).all fun v => (Opcode.try_from v).isSome == decide (v < 38)) = true ∧
    Opcode.try_from 0 = some .MOVE ∧ Opcode.try_from 37 = some .VARARG := by
  refine ⟨rfl, by decide, rfl, rfl⟩

/-- Claim C9 (confirmed): for every instruction word, `sbx` equals the
unsigned 18-bit `bx` field minus the bias `2^17 - 1 = 131071`; in
particular the word `131071 << 14` has `bx = 131071` and `sbx = 0`. -/
theorem C9_sbx_is_bx_minus_bias :
    (∀ w : Nat, Instruction.sbx w = (Instruction.bx w : Int) - 131071) ∧
    Instruction.bx 2147467264 = 131071 ∧
    Instruction.sbx 2147467264 = 0 := by
  refine ⟨fun w => ?_, by decide, by decide⟩
  unfold Instruction.sbx
  omega

/-- Claim C4 counterexample: the claim as stated fails on the code in two
places.  (1) It says string decoding "fails with Truncated when the …
terminator byte is unavailable": with the little-endian 4/8/4/8 header,
the input declaring length 2 whose content byte is present but whose
terminator is missing fails with the `tag` error (kind `Tag`, the
`InvalidEncoding` check), not with the `Eof` kind (`Truncated`) that
every insufficient-input read of this decoder produces.  (2) It says the
decoder "returns the first n-1 bytes as the string content": the content
is passed through `String::from_utf8_lossy`, so the non-UTF-8 content
byte `0xFF` comes back as U+FFFD, not as the raw byte. -/
theorem C4_counterexample :
    parse_string (header_of 1 0) [2, 0, 0, 0, 0, 0, 0, 0, 0x41] =
      .error (.Error ⟨[], .Tag⟩) ∧
    ErrKind.Tag ≠ ErrKind.Eof ∧
    parse_string (header_of 1 0) [2, 0, 0, 0, 0, 0, 0, 0, 0xFF, 0] =
      .ok ([0xFFFD], []) ∧
    ([0xFFFD] : List Nat) ≠ [0xFF] := by
  refine ⟨rfl, by decide, rfl, by decide⟩

/-- Claim C4 as amended: for every header configuration and input, once
the declared length `n` has been read by `parse_size_t`: length 0 yields
the empty string consuming no content bytes; for `n ≥ 1` with `n` further
bytes available the decoder consumes exactly those `n` bytes and returns
the lossy UTF-8 decoding of the first `n - 1` bytes, failing with the
`Tag`-kind error (`InvalidEncoding`) when the n-th byte (the terminator)
is not 0x00; it fails with the `Eof`-kind error (`Truncated`) when the
content bytes are unavailable, and the missing-terminator case surfaces
as the same `Tag`-kind error as a wrong terminator (nom's `tag` does not
distinguish a short input from a mismatch), not as `Truncated`. -/
theorem C4_string_decoding_amended :
    ∀ (h : Header) (l : List Nat) (n : Nat) (l1 : List Nat),
      parse_size_t h l = .ok (n, l1) →
      (n = 0 → parse_string h l = .ok ([], l1)) ∧
      (∀ content term r2, 1 ≤ n → l1 = content ++ term :: r2 →
         content.length = n - 1 →
         (term % 256 = 0 →
            parse_string h l = .ok (utf8Lossy (content.map (· % 256)), r2)) ∧
         (term % 256 ≠ 0 →
            parse_string h l = .error (.Error ⟨term :: r2, .Tag⟩))) ∧
      (1 ≤ n → l1.length < n - 1 → parse_string h l = .error (.Error ⟨l1, .Eof⟩)) ∧
      (1 ≤ n → l1.length = n - 1 → parse_string h l = .error (.Error ⟨[], .Tag⟩)) := by
  intro h l n l1 hs
  refine ⟨?_, ?_, ?_, ?_⟩
  · intro h0
    subst h0
    exact parse_string_zero_len hs
  · intro content term r2 hn hl1 hc
    exact parse_string_content hs hn hl1 hc
  · intro hn hshort
    exact parse_string_content_truncated hs hn hshort
  · intro hn hexact
    exact parse_string_term_missing hs hn hexact

/-- Witness for the amended claim C4 at concrete inputs: a length-2 field
with content `0xFF` and a zero terminator succeeds with the lossy
decoding, and a length-5 field with only two content bytes available is
`Truncated` (`Eof`). -/
theorem C4_amended_witness :
    parse_string (header_of 1 0) [2, 0, 0, 0, 0, 0, 0, 0, 0xFF, 0] =
      .ok (utf8Lossy [0xFF], []) ∧
    parse_string (header_of 1 0) [5, 0, 0, 0, 0, 0, 0, 0, 1, 2] =
      .error (.Error ⟨[1, 2], .Eof⟩) :=
  ⟨((C4_string_decoding_amended (header_of 1 0) [2, 0, 0, 0, 0, 0, 0, 0, 0xFF, 0]
        2 [0xFF, 0] rfl).2.1 [0xFF] 0 [] (by decide) rfl (by decide)).1 (by decide),
   (C4_string_decoding_amended (header_of 1 0) [5, 0, 0, 0, 0, 0, 0, 0, 1, 2]
        5 [1, 2] rfl).2.2.1 (by decide) (by decide)⟩

/-- Claim C10 (confirmed): string decoding never fails because of the
content bytes: for any declared length with the content and a 0x00
terminator available, arbitrary content bytes (UTF-8 or not) are
accepted, and the returned string is the lossy UTF-8 decoding of the
content — invalid sequences become U+FFFD rather than being rejected, so
the decoded string does not always preserve the raw bytes (0xFF maps to
U+FFFD), while valid ASCII passes through unchanged. -/
theorem C10_content_bytes_lossy :
    (∀ (h : Header) (l : List Nat) (n : Nat) (l1 content r2 : List Nat),
       parse_size_t h l = .ok (n, l1) → 1 ≤ n → l1 = content ++ 0 :: r2 →
       content.length = n - 1 →
       parse_string h l = .ok (utf8Lossy (content.map (· % 256)), r2)) ∧
    utf8Lossy [0xFF] = [0xFFFD] ∧
    ([0xFFFD] : List Nat) ≠ [0xFF] ∧
    utf8Lossy [0x41, 0x42] = [0x41, 0x42] := by
  refine ⟨?_, rfl, by decide, rfl⟩
  intro h l n l1 content r2 hs hn hl1 hc
  exact (parse_string_content hs hn hl1 hc).1 rfl

/-- Witness for claim C10: the 3-byte content `41 FF 42` (length field 4)
decodes successfully to `A`, U+FFFD, `B`. -/
theorem C10_witness :
    parse_string (header_of 1 0) [4, 0, 0, 0, 0, 0, 0, 0, 0x41, 0xFF, 0x42, 0] =
      .ok (utf8Lossy [0x41, 0xFF, 0x42], []) ∧
    utf8Lossy [0x41, 0xFF, 0x42] = [0x41, 0xFFFD, 0x42] :=
  ⟨C10_content_bytes_lossy.1 (header_of 1 0) _ 4 [0x41, 0xFF, 0x42, 0] [0x41, 0xFF, 0x42] []
      rfl (by decide) rfl (by decide), rfl⟩

/-- Claim C5 (confirmed): the top-level decode runs the header decoder,
then the prototype decoder once, and succeeds only when the buffer is
fully consumed — whenever any bytes remain after the root prototype it
fails with the trailing-data error (kind `Eof` carrying the unconsumed
suffix).  Concretely, the 12-byte valid header followed by the minimal
44-byte prototype decodes successfully, and the same buffer with one
extra byte yields the trailing-data error on that byte. -/
theorem C5_trailing_data :
    (∀ (input : List Nat) (hd : Header) (l1 : List Nat) (fp : FunctionPrototype)
       (rest : List Nat),
       parse_header input = .ok (hd, l1) →
       parse_function_run hd l1 = .ok (fp, rest) → rest ≠ [] →
       parse_lua_bytecode input = .error (.Error ⟨rest, .Eof⟩)) ∧
    parse_lua_bytecode minimal_chunk = .ok (header_of 1 0, empty_prototype) ∧
    parse_lua_bytecode (minimal_chunk ++ [0]) = .error (.Error ⟨[0], .Eof⟩) := by
  refine ⟨fun input hd l1 fp rest h1 h2 hr => parse_lua_bytecode_trailing h1 h2 hr, by rfl, by rfl⟩

/-- Witness for claim C5: the trailing-data branch applied at the
concrete 57-byte buffer (minimal chunk plus one appended byte). -/
theorem C5_witness :
    parse_lua_bytecode (minimal_chunk ++ [0]) = .error (.Error ⟨[0], .Eof⟩) :=
  C5_trailing_data.1 (minimal_chunk ++ [0]) (header_of 1 0)
    (minimal_proto_bytes ++ [0]) empty_prototype [0] (by rfl) (by rfl) (by decide)

/-- Claim C6 (confirmed): for every header configuration and every finite
buffer the recursive prototype decoder terminates with a prototype or a
genuine parse error: with any fuel exceeding the buffer length the
fuel-exhaustion marker is never reached (so `parse_function_run`, which
uses fuel `length + 1`, never exhausts it), because every recursive call
receives a strictly shorter buffer — each prototype consumes at least its
source-name length field before recursing, witnessed by the strict
consumption of `parse_string`. -/
theorem C6_parse_function_terminates :
    (∀ (h : Header) (l : List Nat), isFuelErr (parse_function_run h l) = false) ∧
    (∀ (fuel : Nat) (h : Header) (l : List Nat), l.length < fuel →
       isFuelErr (parse_function h fuel l) = false) ∧
    (∀ (h : Header) (l s r : List Nat), parse_string h l = .ok (s, r) →
       r.length < l.length) := by
  refine ⟨fun h l => parse_function_noFuel_bdd h (l.length + 1) l (by omega),
    fun fuel h l hl => parse_function_noFuel_bdd h fuel l hl,
    fun h l s r hok => parse_string_consume_lt h l s r hok⟩

/-- Witness for claim C6 at concrete inputs: the fuel bound holds for the
minimal prototype buffer, and parsing its empty source name strictly
consumes the 8 length-field bytes. -/
theorem C6_witness :
    isFuelErr (parse_function (header_of 1 0) 45 minimal_proto_bytes) = false ∧
    ([] : List Nat).length < (List.replicate 8 (0 : Nat)).length :=
  ⟨C6_parse_function_terminates.2.1 45 (header_of 1 0) minimal_proto_bytes (by decide),
   C6_parse_function_terminates.2.2 (header_of 1 0) (List.replicate 8 0) [] [] rfl⟩

/-- Claim C7 counterexample: the claim says every strict prefix of an
accepted buffer decodes to a `Truncated` error and "never … a different
error kind".  The 2-byte prefix of the accepted minimal chunk fails
inside the 4-byte magic `tag` comparison, which reports kind `Tag` (the
same kind as a magic mismatch — nom's `tag` does not distinguish a short
input), not the `Eof` kind that the decoder's insufficient-input reads
(`Truncated`) produce. -/
theorem C7_counterexample :
    isOkB (parse_lua_bytecode minimal_chunk) = true ∧
    [0x1B, 0x4C] ++ minimal_chunk.drop 2 = minimal_chunk ∧
    minimal_chunk.drop 2 ≠ [] ∧
    parse_lua_bytecode [0x1B, 0x4C] = .error (.Error ⟨[0x1B, 0x4C], .Tag⟩) ∧
    ErrKind.Tag ≠ ErrKind.Eof := by
  exact ⟨by rfl, by rfl, by decide, by rfl, by decide⟩

/-- Claim C7 as amended: for every buffer the top-level decode accepts
and every strict prefix of it, decoding the prefix produces an error —
never a successful decode (and, the embedding being total, never a panic
or out-of-bounds access).  The error is not always of the `Eof`
(`Truncated`) kind: a cut that falls inside a `tag` comparison (the
4-byte magic or a string's NUL terminator) is reported with the `Tag`
kind, as the counterexample shows. -/
theorem C7_prefix_errors_amended :
    ∀ (b p ext : List Nat), isOkB (parse_lua_bytecode b) = true →
      b = p ++ ext → ext ≠ [] →
      isOkB (parse_lua_bytecode p) = false := by
  intro b p ext hok hbp hext
  subst hbp
  by_cases hp : isOkB (parse_lua_bytecode p) = true
  · have hfalse := parse_lua_bytecode_append_not_ok hp hext
    rw [hok] at hfalse
    exact absurd hfalse (by decide)
  · simpa using hp

/-- Witness for the amended claim C7: the 55-byte prefix of the accepted
minimal chunk fails to decode. -/
theorem C7_amended_witness :
    isOkB (parse_lua_bytecode (minimal_chunk.take 55)) = false :=
  C7_prefix_errors_amended minimal_chunk (minimal_chunk.take 55) (minimal_chunk.drop 55)
    (by rfl) (by rfl) (by decide)

/-- Claim C8 (confirmed): every length-prefixed section of
`parse_function` — in particular the three debug sections (line-info,
locals, upvalues) — reads its declared count through `parse_integer`,
the 4-byte signed-integer primitive (consuming exactly 4 bytes under the
header's endianness, regardless of the header's `size_size_t`), not
through `parse_size_t`; a count that does not fit the platform's
addressable length (exactly the negative 32-bit values on the 64-bit
target) fails with the `TooLarge` `Failure` (`LengthOverflow`); no other
upper bound is imposed: any non-negative count simply runs the element
parser that many times via `count`, and truncation surfaces as the first
element decode's own error. -/
theorem C8_section_counts :
    (∀ (α : Type) (h : Header) (p : List Nat → PResult α) (l : List Nat)
       (len : Int) (l1 : List Nat),
       parse_integer h l = .ok (len, l1) → len < 0 →
       parse_section h p l = .error (.Failure ⟨l1, .TooLarge⟩)) ∧
    (∀ (α : Type) (h : Header) (p : List Nat → PResult α) (l : List Nat)
       (len : Int) (l1 : List Nat),
       parse_integer h l = .ok (len, l1) → 0 ≤ len →
       parse_section h p l = Nom.count p len.toNat l1) ∧
    (∀ (h : Header) (l : List Nat) (len : Int) (l1 : List Nat),
       parse_integer h l = .ok (len, l1) → l1 = l.drop 4 ∧ 4 ≤ l.length) ∧
    (∀ (α : Type) (p : List Nat → PResult α) (n : Nat) (l : List Nat) (e : NomErr),
       p l = .error e → Nom.count p (n + 1) l = .error e) := by
  refine ⟨?_, ?_, ?_, ?_⟩
  · intro α h p l len l1 hint hneg
    unfold parse_section
    rw [hint, pbind_ok]
    unfold usizeOfI32
    rw [if_pos hneg]
  · intro α h p l len l1 hint hnonneg
    unfold parse_section
    rw [hint, pbind_ok]
    unfold usizeOfI32
    rw [if_neg (by omega)]
  · intro h l len l1 hint
    exact parse_integer_ok_shape hint
  · intro α p n l e he
    rw [count_succ, he, pbind_error]

/-- Witness for claim C8 at concrete inputs: under the little-endian
header (whose `size_size_t` is 8) the count field `FF FF FF FF` decodes
through `parse_integer` to the negative value -1 after exactly 4 bytes,
so the section fails with `TooLarge`; count 1 runs the element parser
once with no further bound; and a failing first element propagates its
own error. -/
theorem C8_witness :
    parse_section (header_of 1 0) Nom.u8 [0xFF, 0xFF, 0xFF, 0xFF, 9] =
      .error (.Failure ⟨[9], .TooLarge⟩) ∧
    parse_section (header_of 1 0) Nom.u8 [1, 0, 0, 0, 9] = Nom.count Nom.u8 1 [9] ∧
    ([9] : List Nat) = [0xFF, 0xFF, 0xFF, 0xFF, 9].drop 4 ∧
    Nom.count Nom.u8 1 [] = .error (.Error ⟨[], .Eof⟩) :=
  ⟨C8_section_counts.1 Nat (header_of 1 0) Nom.u8 [0xFF, 0xFF, 0xFF, 0xFF, 9]
      (-1) [9] (by rfl) (by decide),
   C8_section_counts.2.1 Nat (header_of 1 0) Nom.u8 [1, 0, 0, 0, 9]
      1 [9] (by rfl) (by decide),
   (C8_section_counts.2.2.1 (header_of 1 0) [0xFF, 0xFF, 0xFF, 0xFF, 9]
      (-1) [9] (by rfl)).1,
   C8_section_counts.2.2.2 Nat Nom.u8 0 [] (.Error ⟨[], .Eof⟩) (by rfl)⟩

/-- Claim C3 (confirmed): every 12-byte header with the magic
`1B 4C 75 61`, version `0x51`, format `0x00`, any endianness byte, width
bytes 4, 8, 4, 8 and any integral-flag byte decodes successfully into a
`Header` whose fields equal the decoded input exactly; and mutating any
single byte among the magic, version, format or width positions away
from its valid value makes `parse_header` fail at precisely that field's
check, with that check's own error value — the magic `tag` failure
(kind `Tag`, carrying the whole input: the spec's `InvalidMagic`) or the
`verify` failure of the mutated field (kind `Verify`, carrying the input
from that field's offset, which identifies the failing field:
the spec's `UnsupportedVersion` / `UnsupportedFormat` /
`UnsupportedWidth`).  The error values of different fields are pairwise
distinct; no mutation produces a shared generic error value or a decoded
header. -/
theorem C3_header_validation :
    ∀ (e ib : Nat) (rest : List Nat),
      (parse_header (header_bytes e ib ++ rest) = .ok (header_of e ib, rest)) ∧
      (∀ v, v % 256 ≠ 0x1B →
        parse_header ([v, 0x4C, 0x75, 0x61, 0x51, 0, e, 4, 8, 4, 8, ib] ++ rest) =
          .error (.Error ⟨[v, 0x4C, 0x75, 0x61, 0x51, 0, e, 4, 8, 4, 8, ib] ++ rest, .Tag⟩)) ∧
      (∀ v, v % 256 ≠ 0x4C →
        parse_header ([0x1B, v, 0x75, 0x61, 0x51, 0, e, 4, 8, 4, 8, ib] ++ rest) =
          .error (.Error ⟨[0x1B, v, 0x75, 0x61, 0x51, 0, e, 4, 8, 4, 8, ib] ++ rest, .Tag⟩)) ∧
      (∀ v, v % 256 ≠ 0x75 →
        parse_header ([0x1B, 0x4C, v, 0x61, 0x51, 0, e, 4, 8, 4, 8, ib] ++ rest) =
          .error (.Error ⟨[0x1B, 0x4C, v, 0x61, 0x51, 0, e, 4, 8, 4, 8, ib] ++ rest, .Tag⟩)) ∧
      (∀ v, v % 256 ≠ 0x61 →
        parse_header ([0x1B, 0x4C, 0x75, v, 0x51, 0, e, 4, 8, 4, 8, ib] ++ rest) =
          .error (.Error ⟨[0x1B, 0x4C, 0x75, v, 0x51, 0, e, 4, 8, 4, 8, ib] ++ rest, .Tag⟩)) ∧
      (∀ v, v % 256 ≠ 0x51 →
        parse_header ([0x1B, 0x4C, 0x75, 0x61, v, 0, e, 4, 8, 4, 8, ib] ++ rest) =
          .error (.Error ⟨v :: 0 :: e :: 4 :: 8 :: 4 :: 8 :: ib :: rest, .Verify⟩)) ∧
      (∀ v, v % 256 ≠ 0 →
        parse_header ([0x1B, 0x4C, 0x75, 0x61, 0x51, v, e, 4, 8, 4, 8, ib] ++ rest) =
          .error (.Error ⟨v :: e :: 4 :: 8 :: 4 :: 8 :: ib :: rest, .Verify⟩)) ∧
      (∀ v, v % 256 ≠ 4 →
        parse_header ([0x1B, 0x4C, 0x75, 0x61, 0x51, 0, e, v, 8, 4, 8, ib] ++ rest) =
          .error (.Error ⟨v :: 8 :: 4 :: 8 :: ib :: rest, .Verify⟩)) ∧
      (∀ v, v % 256 ≠ 8 →
        parse_header ([0x1B, 0x4C, 0x75, 0x61, 0x51, 0, e, 4, v, 4, 8, ib] ++ rest) =
          .error (.Error ⟨v :: 4 :: 8 :: ib :: rest, .Verify⟩)) ∧
      (∀ v, v % 256 ≠ 4 →
        parse_header ([0x1B, 0x4C, 0x75, 0x61, 0x51, 0, e, 4, 8, v, 8, ib] ++ rest) =
          .error (.Error ⟨v :: 8 :: ib :: rest, .Verify⟩)) ∧
      (∀ v, v % 256 ≠ 8 →
        parse_header ([0x1B, 0x4C, 0x75, 0x61, 0x51, 0, e, 4, 8, 4, v, ib] ++ rest) =
          .error (.Error ⟨v :: ib :: rest, .Verify⟩)) := by
  intro e ib rest
  refine ⟨?_, ?_, ?_, ?_, ?_, ?_, ?_, ?_, ?_, ?_, ?_⟩
  · unfold parse_header header_bytes header_of
    simp [Nom.tag, Nom.verify_u8, Nom.u8, pbind]
  all_goals
    intro v hv
    unfold parse_header
    simp [Nom.tag, Nom.verify_u8, Nom.u8, hv, pbind]

/-- Witness for claim C3: the valid header with endianness byte 1 and
integral byte 0 decodes exactly, and the byte `0xAA` substituted at each
of the ten checked positions produces that field's specific error. -/
theorem C3_witness :
    parse_header (header_bytes 1 0) = .ok (header_of 1 0, []) ∧
    parse_header [0xAA, 0x4C, 0x75, 0x61, 0x51, 0, 1, 4, 8, 4, 8, 0] =
      .error (.Error ⟨[0xAA, 0x4C, 0x75, 0x61, 0x51, 0, 1, 4, 8, 4, 8, 0], .Tag⟩) ∧
    parse_header [0x1B, 0xAA, 0x75, 0x61, 0x51, 0, 1, 4, 8, 4, 8, 0] =
      .error (.Error ⟨[0x1B, 0xAA, 0x75, 0x61, 0x51, 0, 1, 4, 8, 4, 8, 0], .Tag⟩) ∧
    parse_header [0x1B, 0x4C, 0xAA, 0x61, 0x51, 0, 1, 4, 8, 4, 8, 0] =
      .error (.Error ⟨[0x1B, 0x4C, 0xAA, 0x61, 0x51, 0, 1, 4, 8, 4, 8, 0], .Tag⟩) ∧
    parse_header [0x1B, 0x4C, 0x75, 0xAA, 0x51, 0, 1, 4, 8, 4, 8, 0] =
      .error (.Error ⟨[0x1B, 0x4C, 0x75, 0xAA, 0x51, 0, 1, 4, 8, 4, 8, 0], .Tag⟩) ∧
    parse_header [0x1B, 0x4C, 0x75, 0x61, 0xAA, 0, 1, 4, 8, 4, 8, 0] =
      .error (.Error ⟨[0xAA, 0, 1, 4, 8, 4, 8, 0], .Verify⟩) ∧
    parse_header [0x1B, 0x4C, 0x75, 0x61, 0x51, 0xAA, 1, 4, 8, 4, 8, 0] =
      .error (.Error ⟨[0xAA, 1, 4, 8, 4, 8, 0], .Verify⟩) ∧
    parse_header [0x1B, 0x4C, 0x75, 0x61, 0x51, 0, 1, 0xAA, 8, 4, 8, 0] =
      .error (.Error ⟨[0xAA, 8, 4, 8, 0], .Verify⟩) ∧
    parse_header [0x1B, 0x4C, 0x75, 0x61, 0x51, 0, 1, 4, 0xAA, 4, 8, 0] =
      .error (.Error ⟨[0xAA, 4, 8, 0], .Verify⟩) ∧
    parse_header [0x1B, 0x4C, 0x75, 0x61, 0x51, 0, 1, 4, 8, 0xAA, 8, 0] =
      .error (.Error ⟨[0xAA, 8, 0], .Verify⟩) ∧
    parse_header [0x1B, 0x4C, 0x75, 0x61, 0x51, 0, 1, 4, 8, 4, 0xAA, 0] =
      .error (.Error ⟨[0xAA, 0], .Verify⟩) := by
  have h := C3_header_validation 1 0 []
  refine ⟨?_, ?_, ?_, ?_, ?_, ?_, ?_, ?_, ?_, ?_, ?_⟩
  · have := h.1
    simpa using this
  · simpa using h.2.1 0xAA (by decide)
  · simpa using h.2.2.1 0xAA (by decide)
  · simpa using h.2.2.2.1 0xAA (by decide)
  · simpa using h.2.2.2.2.1 0xAA (by decide)
  · simpa using h.2.2.2.2.2.1 0xAA (by decide)
  · simpa using h.2.2.2.2.2.2.1 0xAA (by decide)
  · simpa using h.2.2.2.2.2.2.2.1 0xAA (by decide)
  · simpa using h.2.2.2.2.2.2.2.2.1 0xAA (by decide)
  · simpa using h.2.2.2.2.2.2.2.2.2.1 0xAA (by decide)
  · simpa using h.2.2.2.2.2.2.2.2.2.2 0xAA (by decide)
